/-
  Verification of `xml_to_json_yaml.py` (repository alerodriargui/xml-json-yaml).

  The Python source is shallowly embedded: pure helper functions become Lean
  functions, Python dicts become insertion-ordered association lists with
  overwrite-on-update semantics, the streaming transcoder in `main` becomes an
  explicit fold over the list of record elements, and the file-system side
  effects (opening, writing, closing the per-partition output files) become an
  explicit event log and writer states carried through the fold.
-/
import Mathlib

namespace XmlJsonYaml

/-! ### Date-to-partition-key resolver

Embedding of `YEAR_RE = re.compile(r'(18\d{2}|19\d{2}|20\d{2})')` and
`extract_year_from_birth` (src/xml_to_json_yaml.py lines 64-79), together with
the wrapper `extract_year_from_birth(str(birth_val or 'unknown')) or 'unknown'`
from `main` (line 140). -/

/-- `yearStart a b` holds when the two-character prefix of a candidate match is
`18`, `19` or `20`, mirroring the alternation `18|19|20` of `YEAR_RE`. -/
def yearStart (a b : Char) : Bool :=
  (a = '1' && (b = '8' || b = '9')) || (a = '2' && b = '0')

/-- Left-to-right scan for the first (leftmost) match of
`18\d{2}|19\d{2}|20\d{2}`, mirroring `YEAR_RE.search`: `re.search` tries each
start position from the left and returns the first position where some
alternative matches; at any given position at most one alternative can match. -/
def findYear : List Char → Option (List Char)
  | a :: b :: c :: d :: rest =>
    if yearStart a b && c.isDigit && d.isDigit then some [a, b, c, d]
    else findYear (b :: c :: d :: rest)
  | _ => none

/-- `len(t) == 4 and t.isdigit()`: exactly four characters, all decimal digits. -/
def fourDigits (t : String) : Bool :=
  t.length = 4 && t.toList.all Char.isDigit

/-- Embedding of Python `str.split('-')` on a character list: splitting on
every occurrence of the separator, keeping empty segments, with `[""]` for the
empty string. -/
def splitDash : List Char → List (List Char)
  | [] => [[]]
  | c :: rest =>
    let r := splitDash rest
    if c = '-' then [] :: r
    else (c :: r.headD []) :: r.tail

/-- `birth_str.split('-')` as a list of strings. -/
def pySplitDash (s : String) : List String :=
  (splitDash s.toList).map List.asString

/-- Embedding of `extract_year_from_birth` (lines 66-79): `None` for a falsy
(empty) string; otherwise the first `YEAR_RE` match if any; otherwise the first
`-`-separated segment if it is four digits; otherwise the last segment if it is
four digits; otherwise `None`. -/
def extract_year_from_birth (birth : String) : Option String :=
  if birth = "" then none
  else
    match findYear birth.toList with
    | some y => some y.asString
    | none =>
      if fourDigits ((pySplitDash birth).headD "") then
        some ((pySplitDash birth).headD "")
      else if fourDigits ((pySplitDash birth).getLastD "") then
        some ((pySplitDash birth).getLastD "")
      else none

/-- Embedding of the call site in `main` (line 140) for a scalar (or missing)
birth value: `extract_year_from_birth(str(birth_val or 'unknown')) or
'unknown'`.  A missing value or an empty string is falsy, so the resolver is
applied to the literal `"unknown"` in those cases. -/
def resolve_year (birth : Option String) : String :=
  let s := match birth with
    | none => "unknown"
    | some t => if t = "" then "unknown" else t
  (extract_year_from_birth s).getD "unknown"

/-! #### Spec-side characterisation of the regex search -/

/-- Position `i` of the character list starts a four-digit run matching
`18\d{2}|19\d{2}|20\d{2}`.  Stated through `List.get?` so it is independent of
the scanning recursion in `findYear`. -/
def hasYearRunAt (l : List Char) (i : ℕ) : Bool :=
  match l.get? i, l.get? (i + 1), l.get? (i + 2), l.get? (i + 3) with
  | some a, some b, some c, some d => yearStart a b && c.isDigit && d.isDigit
  | _, _, _, _ => false

/-! ### Record projector

Embedding of `map_tag` (lines 81-82) and `person_elem_to_dict` (lines 85-100).
An `ET.Element` is modelled by its tag, attribute list, text and child list; a
Python dict is modelled as an insertion-ordered association list where updating
an existing key overwrites in place and a new key is appended. -/

/-- An XML element as seen by the projector: tag, attributes (insertion
order), text content (`None` or a string) and direct children. -/
inductive Elem where
  | mk (tag : String) (attrib : List (String × String)) (text : Option String)
      (children : List Elem)

def Elem.tag : Elem → String
  | .mk t _ _ _ => t

def Elem.attrib : Elem → List (String × String)
  | .mk _ a _ _ => a

def Elem.text : Elem → Option String
  | .mk _ _ t _ => t

def Elem.children : Elem → List Elem
  | .mk _ _ _ c => c

/-- A projected field value: a scalar string or a one-level sub-mapping. -/
inductive Val where
  | s (v : String)
  | sub (m : List (String × String))
deriving DecidableEq

/-- Python dict assignment `d[k] = v` on an insertion-ordered association
list: an existing key keeps its position and gets the new value, a new key is
appended at the end. -/
def dictInsert {α : Type} (d : List (String × α)) (k : String) (v : α) :
    List (String × α) :=
  if d.any (fun p => p.1 = k) then
    d.map (fun p => if p.1 = k then (k, v) else p)
  else d ++ [(k, v)]

/-- Python `d.get(k)` / `k in d` lookup on the association-list model. -/
def lookupVal {α : Type} (d : List (String × α)) (k : String) : Option α :=
  (d.find? (fun p => p.1 = k)).map Prod.snd

/-- Embedding of `map_tag` (lines 81-82): `mapping.get(tag, tag)`. -/
def map_tag (tag : String) (mapping : List (String × String)) : String :=
  (lookupVal mapping tag).getD tag

/-- Python whitespace characters stripped by `str.strip()` (ASCII range). -/
def isPySpace (c : Char) : Bool :=
  c = ' ' || c = '\t' || c = '\n' || c = '\r' || c = '\x0B' || c = '\x0C'

/-- `str.strip()`: drop leading and trailing whitespace. -/
def pyStrip (s : String) : String :=
  ((s.toList.dropWhile isPySpace).reverse.dropWhile isPySpace).reverse.asString

/-- `child.text.strip() if child.text else ''`: a missing or empty (falsy)
text yields the empty string, otherwise the stripped text. -/
def stripText (t : Option String) : String :=
  match t with
  | none => ""
  | some v => if v = "" then "" else pyStrip v

/-- The sub-mapping built for one child with children (lines 96-98): each
grandchild's mapped tag is assigned its stripped text. -/
def subDict (c : Elem) (mapping : List (String × String)) :
    List (String × String) :=
  c.children.foldl
    (fun sub g => dictInsert sub (map_tag g.tag mapping) (stripText g.text)) []

/-- Embedding of `person_elem_to_dict` (lines 85-100): attributes first, then
each direct child, childless children as scalars and children with children as
one-level sub-mappings. -/
def person_elem_to_dict (elem : Elem) (mapping : List (String × String)) :
    List (String × Val) :=
  let d := elem.attrib.foldl
    (fun d kv => dictInsert d (map_tag kv.1 mapping) (Val.s kv.2)) []
  elem.children.foldl
    (fun d child =>
      if child.children.isEmpty then
        dictInsert d (map_tag child.tag mapping) (Val.s (stripText child.text))
      else
        dictInsert d (map_tag child.tag mapping)
          (Val.sub (subDict child mapping)))
    d

/-- The value the projector assigns to one direct child. -/
def childVal (c : Elem) (mapping : List (String × String)) : Val :=
  if c.children.isEmpty then Val.s (stripText c.text)
  else Val.sub (subDict c mapping)

/-- Mapped names of all top-level fields (attributes then children), in
projection order. -/
def topMappedKeys (e : Elem) (mapping : List (String × String)) : List String :=
  e.attrib.map (fun kv => map_tag kv.1 mapping)
    ++ e.children.map (fun c => map_tag c.tag mapping)

/-- Mapped tags of the grandchildren under one child. -/
def subMappedKeys (c : Elem) (mapping : List (String × String)) : List String :=
  c.children.map (fun g => map_tag g.tag mapping)

/-- The element with everything below the grandchildren removed: the spec says
only one level of nesting is projected, so projecting `pruneDeep e` must agree
with projecting `e`. -/
def pruneDeep (e : Elem) : Elem :=
  Elem.mk e.tag e.attrib e.text (e.children.map (fun c =>
    Elem.mk c.tag c.attrib c.text (c.children.map (fun g =>
      Elem.mk g.tag g.attrib g.text []))))

/-! ### The claims about the projector -/

/-- Modelled from the spec for the round-trip half of C6: the projection in
which every field and sub-field name is taken verbatim (no translation
applied anywhere). -/
def projectUnmapped (elem : Elem) : List (String × Val) :=
  let d := elem.attrib.foldl (fun d kv => dictInsert d kv.1 (Val.s kv.2)) []
  elem.children.foldl
    (fun d child =>
      if child.children.isEmpty then
        dictInsert d child.tag (Val.s (stripText child.text))
      else
        dictInsert d child.tag (Val.sub (child.children.foldl
          (fun sub g => dictInsert sub g.tag (stripText g.text)) [])))
    d

def wName : Elem := Elem.mk "name" [] (some " Ana ") []

def wCity : Elem := Elem.mk "city" [] (some "X") []

def wAddr : Elem := Elem.mk "address" [] none [wCity]

def wPerson : Elem := Elem.mk "person" [("id", "7")] none [wName, wAddr]

def wMap : List (String × String) := [("name", "nombre")]

def wCity7 : Elem := Elem.mk "city" [] (some "X") []

def wAddr7 : Elem := Elem.mk "address" [] none [wCity7]

def wE7 : Elem := Elem.mk "p" [("id", "1")] none [wAddr7]

def wM7 : List (String × String) := [("city", "ciudad")]

/-! ### Partitioned writers and the transcoder

Embedding of `JsonArrayWriter` (lines 39-54), `yaml_write` (lines 58-61) and
the orchestration in `main` (lines 118-170).  File-system effects are modelled
by writer states holding the accumulated file content, plus an event log of
open/write/close operations per partition key. -/

/-- The fixed candidate list of date-bearing field names tried by `main`
(line 133). -/
def candidates : List String :=
  ["birth", "fecha", "fechaNacimiento", "birthdate", "birth_date"]

/-- `main` lines 131-139: the first candidate name present in the record wins;
otherwise fall back to `record.get(mapping.get('birth', 'birth'))`. -/
def birthValOf (record : List (String × Val))
    (mapping : List (String × String)) : Option Val :=
  match candidates.find? (fun c => (lookupVal record c).isSome) with
  | some c => lookupVal record c
  | none => lookupVal record (map_tag "birth" mapping)

/-- Python `str()` of a dict value, as in `str(birth_val)` when the birth
field holds a sub-mapping (modelled for keys and values that need no quote
escaping, which is all the theorems use). -/
def pyReprDict (m : List (String × String)) : String :=
  "\x7b" ++ String.intercalate ", "
    (m.map (fun p => "\x27" ++ p.1 ++ "\x27: \x27" ++ p.2 ++ "\x27"))
    ++ "\x7d"

def pyStrOfVal : Val → String
  | .s v => v
  | .sub m => pyReprDict m

/-- Python falsiness of a projected value: the empty string and the empty
dict are falsy. -/
def isFalsyVal : Val → Bool
  | .s v => v = ""
  | .sub m => m.isEmpty

/-- `str(birth_val or 'unknown')` (line 140). -/
def birthString (v : Option Val) : String :=
  match v with
  | none => "unknown"
  | some w => if isFalsyVal w then "unknown" else pyStrOfVal w

/-- Lines 131-141: the partition key computed for one projected record. -/
def recordYear (record : List (String × Val))
    (mapping : List (String × String)) : String :=
  (extract_year_from_birth (birthString (birthValOf record mapping))).getD
    "unknown"

/-- Lower-case hex digit, for JSON `\u00XX` escapes. -/
def hexDigit (n : ℕ) : Char :=
  if n < 10 then Char.ofNat (48 + n) else Char.ofNat (97 + (n - 10))

/-- JSON string escaping as in `json.dump(..., ensure_ascii=False)`: only
`"`, backslash and control characters below 0x20 are escaped. -/
def jsonEscapeChar (c : Char) : List Char :=
  if c = '"' then ['\\', '"']
  else if c = '\\' then ['\\', '\\']
  else if c = '\n' then ['\\', 'n']
  else if c = '\t' then ['\\', 't']
  else if c = '\r' then ['\\', 'r']
  else if c.toNat = 8 then ['\\', 'b']
  else if c.toNat = 12 then ['\\', 'f']
  else if c.toNat < 32 then
    ['\\', 'u', '0', '0',
      hexDigit (c.toNat / 16), hexDigit (c.toNat % 16)]
  else [c]

/-- A JSON string literal for `s`. -/
def jsonStr (s : String) : String :=
  "\"" ++ (s.toList.map jsonEscapeChar).flatten.asString ++ "\""

/-- `json.dump(..., indent=2)` rendering of a one-level sub-mapping, nested at
depth one inside the record object. -/
def jsonDumpSub (m : List (String × String)) : String :=
  if m.isEmpty then "\x7b\x7d"
  else
    "\x7b\n"
      ++ String.intercalate ",\n"
        (m.map (fun p => "    " ++ jsonStr p.1 ++ ": " ++ jsonStr p.2))
      ++ "\n  \x7d"

def jsonDumpVal : Val → String
  | .s v => jsonStr v
  | .sub m => jsonDumpSub m

/-- `json.dump(record, f, ensure_ascii=False, indent=2)` (line 50) for one
projected record: a pretty-printed object written starting at the current
file position (the enclosing array punctuation is written by
`JsonArrayWriter`, not by `json.dump`). -/
def jsonDumpRecord (r : List (String × Val)) : String :=
  if r.isEmpty then "\x7b\x7d"
  else
    "\x7b\n"
      ++ String.intercalate ",\n"
        (r.map (fun p => "  " ++ jsonStr p.1 ++ ": " ++ jsonDumpVal p.2))
      ++ "\n\x7d"

/-- Embedding of `JsonArrayWriter` (lines 39-54): the accumulated file
content, the `first` flag, and the destination path the writer was opened
on. -/
structure JsonArrayWriter where
  path : String
  content : String
  first : Bool
deriving DecidableEq

/-- `JsonArrayWriter.__init__`: open the file and write `"[\n"`. -/
def JsonArrayWriter.init (p : String) : JsonArrayWriter :=
  ⟨p, "[\n", true⟩

/-- `JsonArrayWriter.write`: a `",\n"` separator before every element except
the first, then the serialized record. -/
def JsonArrayWriter.write (w : JsonArrayWriter) (r : List (String × Val)) :
    JsonArrayWriter :=
  ⟨w.path,
    w.content ++ (if w.first then "" else ",\n") ++ jsonDumpRecord r,
    false⟩

/-- `JsonArrayWriter.close`: write `"\n]\n"` and release the handle; the
final file content. -/
def JsonArrayWriter.closeContent (w : JsonArrayWriter) : String :=
  w.content ++ "\n]\n"

/-- Keys sorted as by Python `sorted` (PyYAML `safe_dump` defaults to
`sort_keys=True`). -/
def sortByKey {α : Type} (r : List (String × α)) : List (String × α) :=
  List.insertionSort (fun a b => a.1 ≤ b.1) r

/-- A plain YAML scalar; the empty string renders as `''` (modelled from
PyYAML for values that need no quoting). -/
def yamlScalar (v : String) : String :=
  if v = "" then "\x27\x27" else v

/-- Modelled from PyYAML `yaml.safe_dump(obj, f, allow_unicode=True)`
(line 60) restricted to records whose keys and scalar values are plain
scalars: a block mapping with sorted keys, one-level sub-mappings indented by
two spaces, an empty mapping rendered in flow style. -/
def yamlDumpRecord (r : List (String × Val)) : String :=
  if r.isEmpty then "\x7b\x7d\n"
  else
    String.join ((sortByKey r).map (fun p =>
      match p.2 with
      | .s v => p.1 ++ ": " ++ yamlScalar v ++ "\n"
      | .sub m =>
        if m.isEmpty then p.1 ++ ": \x7b\x7d\n"
        else
          p.1 ++ ":\n"
            ++ String.join ((sortByKey m).map (fun q =>
              "  " ++ q.1 ++ ": " ++ yamlScalar q.2 ++ "\n"))))

/-- `yaml_write` (lines 58-61): one `safe_dump` of the record followed by a
newline. -/
def yaml_write (content : String) (r : List (String × Val)) : String :=
  content ++ yamlDumpRecord r ++ "\n"

/-- Generic split of a character list on a separator character. -/
def splitOnChar (sep : Char) : List Char → List (List Char)
  | [] => [[]]
  | c :: rest =>
    let r := splitOnChar sep rest
    if c = sep then [] :: r
    else (c :: r.headD []) :: r.tail

/-- A line of a file: `---` alone or `--- ` starts a further YAML document. -/
def isDocStart (l : List Char) : Bool :=
  l = ['-', '-', '-']
    || l.take 4 = ['-', '-', '-', ' ']

/-- Modelled from the YAML specification (not from this repository): the
number of documents a stream parser reads from a file.  A stream that is not
effectively empty and holds no explicit `---` document-start marker is one
single document; each `---` marker line begins one further document. -/
def yamlDocCount (s : String) : ℕ :=
  if s.toList.all isPySpace then 0
  else 1 + ((splitOnChar '\n' s.toList).filter isDocStart).length

/-- `outdir / f'people_{year_str}.json'` (line 145). -/
def jsonPath (outdir key : String) : String :=
  outdir ++ "/people_" ++ key ++ ".json"

/-- `outdir / f'people_{year_str}.yaml'` (line 150). -/
def yamlPath (outdir key : String) : String :=
  outdir ++ "/people_" ++ key ++ ".yaml"

/-- One file-system operation performed by the transcoder, for stating the
writer-lifecycle invariants. -/
inductive Event where
  | openJson (key path : String)
  | writeJson (key : String)
  | closeJson (key : String)
  | openYaml (key path : String)
  | writeYaml (key : String)
  | closeYaml (key : String)
deriving DecidableEq

def isCloseEvent : Event → Bool
  | .closeJson _ => true
  | .closeYaml _ => true
  | _ => false

def jsonEventsFor (k : String) : Event → Bool
  | .openJson k2 _ => k2 = k
  | .writeJson k2 => k2 = k
  | .closeJson k2 => k2 = k
  | _ => false

def yamlEventsFor (k : String) : Event → Bool
  | .openYaml k2 _ => k2 = k
  | .writeYaml k2 => k2 = k
  | .closeYaml k2 => k2 = k
  | _ => false

/-- An open YAML output file: destination and accumulated content. -/
structure YamlFile where
  path : String
  content : String
deriving DecidableEq

/-- The mid-run state of `main`: the two writer registries (`json_writers`,
`yaml_files`, lines 118-119) and the log of file operations so far. -/
structure TState where
  jsonWriters : List (String × JsonArrayWriter)
  yamlFiles : List (String × YamlFile)
  events : List Event
deriving DecidableEq

def initState : TState := ⟨[], [], []⟩

/-- Lines 143-146: create the JSON writer for the key if absent, then append
the record to it. -/
def jsonStep (outdir year : String) (record : List (String × Val))
    (st : TState) : TState :=
  match lookupVal st.jsonWriters year with
  | some w =>
    ⟨dictInsert st.jsonWriters year (w.write record), st.yamlFiles,
      st.events ++ [Event.writeJson year]⟩
  | none =>
    ⟨dictInsert st.jsonWriters year
        ((JsonArrayWriter.init (jsonPath outdir year)).write record),
      st.yamlFiles,
      st.events
        ++ [Event.openJson year (jsonPath outdir year),
            Event.writeJson year]⟩

/-- Lines 148-151: create the YAML file for the key if absent, then append
one document for the record. -/
def yamlStep (outdir year : String) (record : List (String × Val))
    (st : TState) : TState :=
  match lookupVal st.yamlFiles year with
  | some f =>
    ⟨st.jsonWriters,
      dictInsert st.yamlFiles year ⟨f.path, yaml_write f.content record⟩,
      st.events ++ [Event.writeYaml year]⟩
  | none =>
    ⟨st.jsonWriters,
      dictInsert st.yamlFiles year
        ⟨yamlPath outdir year, yaml_write "" record⟩,
      st.events
        ++ [Event.openYaml year (yamlPath outdir year),
            Event.writeYaml year]⟩

/-- The loop body of `main` for one record element (lines 128-163): project,
resolve the partition key, route to both writers.  (`elem.clear()` only
releases memory and does not change any modelled state.) -/
def processRecord (outdir : String) (mapping : List (String × String))
    (st : TState) (elem : Elem) : TState :=
  let record := person_elem_to_dict elem mapping
  let year := recordYear record mapping
  yamlStep outdir year record (jsonStep outdir year record st)

/-- The `for event, elem in context` loop (lines 123-163): elements whose tag
is not the record tag are skipped. -/
def runLoop (outdir : String) (mapping : List (String × String))
    (elems : List Elem) (recordTag : String) : TState :=
  elems.foldl
    (fun st e =>
      if e.tag = recordTag then processRecord outdir mapping st e else st)
    initState

/-- A finished output file. -/
structure OutFile where
  path : String
  content : String
deriving DecidableEq

/-- The result of a completed run: final per-key file contents and the full
event log. -/
structure RunResult where
  jsonOut : List (String × OutFile)
  yamlOut : List (String × OutFile)
  events : List Event
deriving DecidableEq

/-- Lines 166-170: close every JSON writer (writing the `"\n]\n"` footer),
then close every YAML file. -/
def closeAll (st : TState) : RunResult :=
  ⟨st.jsonWriters.map (fun p => (p.1, ⟨p.2.path, p.2.closeContent⟩)),
    st.yamlFiles.map (fun p => (p.1, ⟨p.2.path, p.2.content⟩)),
    st.events
      ++ st.jsonWriters.map (fun p => Event.closeJson p.1)
      ++ st.yamlFiles.map (fun p => Event.closeYaml p.1)⟩

/-- The whole of `main` after argument parsing, for a given element stream. -/
def runTranscoder (outdir : String) (mapping : List (String × String))
    (elems : List Elem) (recordTag : String) : RunResult :=
  closeAll (runLoop outdir mapping elems recordTag)

/-- The loop of `main` with an environment `fail` marking which element
indices raise inside the per-record body (lines 128-151: projection or
routing).  The source wraps none of that body in `try`/`except` and has no
`finally`, so an exception propagates out of the loop immediately and the
close section (lines 166-170) is never reached; the embedding mirrors this by
propagating `.error` with the state at the moment of failure. -/
def runLoopEAux (outdir : String) (mapping : List (String × String))
    (recordTag : String) (fail : ℕ → Bool) :
    List Elem → ℕ → TState → Except (ℕ × TState) TState
  | [], _, st => .ok st
  | e :: rest, i, st =>
    if e.tag = recordTag then
      if fail i then .error (i, st)
      else
        runLoopEAux outdir mapping recordTag fail rest (i + 1)
          (processRecord outdir mapping st e)
    else runLoopEAux outdir mapping recordTag fail rest (i + 1) st

/-- `main` with failure injection: close the writers only if the loop
completed. -/
def runTranscoderE (outdir : String) (mapping : List (String × String))
    (elems : List Elem) (recordTag : String) (fail : ℕ → Bool) :
    Except (ℕ × TState) RunResult :=
  match runLoopEAux outdir mapping recordTag fail elems 0 initState with
  | .error x => .error x
  | .ok st => .ok (closeAll st)

/-- The projected records of the run, in source order. -/
def projectedRecords (mapping : List (String × String)) (elems : List Elem)
    (recordTag : String) : List (List (String × Val)) :=
  (elems.filter (fun e => e.tag = recordTag)).map
    (fun e => person_elem_to_dict e mapping)

/-- The partition key of each record of the run, in source order. -/
def routedYears (mapping : List (String × String)) (elems : List Elem)
    (recordTag : String) : List String :=
  (projectedRecords mapping elems recordTag).map
    (fun r => recordYear r mapping)

/-- The records routed to one partition key, in source order. -/
def routedRecords (mapping : List (String × String)) (elems : List Elem)
    (recordTag : String) (k : String) : List (List (String × Val)) :=
  (projectedRecords mapping elems recordTag).filter
    (fun r => recordYear r mapping = k)

/-- The body of a JSON array file: the serialized elements joined by the
`",\n"` separator (no separator before the first). -/
def jsonArrayBody : List (List (String × Val)) → String
  | [] => ""
  | [r] => jsonDumpRecord r
  | r :: r2 :: rest => jsonDumpRecord r ++ ",\n" ++ jsonArrayBody (r2 :: rest)

/-- The content of a YAML output file: the document of each record followed
by a blank-line separator. -/
def yamlStreamBody : List (List (String × Val)) → String
  | [] => ""
  | r :: rest => (yamlDumpRecord r ++ "\n") ++ yamlStreamBody rest

/-! #### The writer-pool loop invariant -/

/-- The JSON half of the loop invariant: after routing the records `rs`, the
JSON registry has exactly the routed keys, each writer holds the accumulated
array body for its key at its deterministic path with `first` already flipped,
and the JSON events for each key are one open followed by one write per routed
record (and never a close). -/
def JInv (outdir : String) (mapping : List (String × String))
    (rs : List (List (String × Val))) (st : TState) : Prop :=
  ((st.jsonWriters.map Prod.fst).Nodup) ∧
  (∀ k, k ∈ st.jsonWriters.map Prod.fst
    ↔ k ∈ rs.map (fun r => recordYear r mapping)) ∧
  (∀ k, k ∈ rs.map (fun r => recordYear r mapping) →
    lookupVal st.jsonWriters k
      = some ⟨jsonPath outdir k,
          "[\n" ++ jsonArrayBody
            (rs.filter (fun r => recordYear r mapping = k)),
          false⟩) ∧
  (∀ k, st.events.filter (jsonEventsFor k)
      = if k ∈ rs.map (fun r => recordYear r mapping) then
          Event.openJson k (jsonPath outdir k)
            :: List.replicate
              ((rs.map (fun r => recordYear r mapping)).count k)
              (Event.writeJson k)
        else [])

/-- The YAML half of the loop invariant, mirroring `JInv`. -/
def YInv (outdir : String) (mapping : List (String × String))
    (rs : List (List (String × Val))) (st : TState) : Prop :=
  ((st.yamlFiles.map Prod.fst).Nodup) ∧
  (∀ k, k ∈ st.yamlFiles.map Prod.fst
    ↔ k ∈ rs.map (fun r => recordYear r mapping)) ∧
  (∀ k, k ∈ rs.map (fun r => recordYear r mapping) →
    lookupVal st.yamlFiles k
      = some ⟨yamlPath outdir k,
          yamlStreamBody (rs.filter (fun r => recordYear r mapping = k))⟩) ∧
  (∀ k, st.events.filter (yamlEventsFor k)
      = if k ∈ rs.map (fun r => recordYear r mapping) then
          Event.openYaml k (yamlPath outdir k)
            :: List.replicate
              ((rs.map (fun r => recordYear r mapping)).count k)
              (Event.writeYaml k)
        else [])

def LoopInv (outdir : String) (mapping : List (String × String))
    (rs : List (List (String × Val))) (st : TState) : Prop :=
  JInv outdir mapping rs st ∧ YInv outdir mapping rs st

/-! ### Claims about the orchestrator -/

def wP1 : Elem :=
  Elem.mk "person" [] none [Elem.mk "birth" [] (some "1990-01-01") []]

def wP2 : Elem :=
  Elem.mk "person" [] none [Elem.mk "birth" [] (some "1990-12-31") []]

def wE8 : Elem :=
  Elem.mk "person" [] none
    [Elem.mk "birth" [] (some "1971-05-02") [],
     Elem.mk "name" [] (some "Al") []]

/-! ## Theorems -/

@[simp] theorem hasYearRunAt_cons_succ (a : Char) (l : List Char) (i : ℕ) :
    hasYearRunAt (a :: l) (i + 1) = hasYearRunAt l i := by
  simp [hasYearRunAt]

theorem hasYearRunAt_zero (a b c d : Char) (r : List Char) :
    hasYearRunAt (a :: b :: c :: d :: r) 0
      = (yearStart a b && c.isDigit && d.isDigit) := by
  simp [hasYearRunAt]

theorem hasYearRunAt_oob (l : List Char) (i : ℕ) (h : l.length ≤ i + 3) :
    hasYearRunAt l i = false := by
  have h3 : l.get? (i + 3) = none := by
    apply List.get?_eq_none.mpr
    omega
  unfold hasYearRunAt
  rw [h3]
  rcases l.get? i with _ | a <;> rcases l.get? (i + 1) with _ | b <;>
    rcases l.get? (i + 2) with _ | c <;> rfl

theorem findYear_eq_none (l : List Char) :
    findYear l = none ↔ ∀ i, hasYearRunAt l i = false := by
  induction l using findYear.induct with
  | case1 a b c d rest hmatch =>
    rw [findYear, if_pos hmatch]
    constructor
    · intro h; cases h
    · intro h
      have := h 0
      rw [hasYearRunAt_zero, hmatch] at this
      cases this
  | case2 a b c d rest hmatch ih =>
    rw [findYear, if_neg hmatch]
    rw [ih]
    constructor
    · intro h i
      cases i with
      | zero => rw [hasYearRunAt_zero]; simpa using hmatch
      | succ j => rw [hasYearRunAt_cons_succ]; exact h j
    · intro h i
      have := h (i + 1)
      rwa [hasYearRunAt_cons_succ] at this
  | case3 l hshort =>
    have hlen : l.length < 4 := by
      rcases l with _ | ⟨a, _ | ⟨b, _ | ⟨c, _ | ⟨d, r⟩⟩⟩⟩
      · simp
      · simp
      · simp
      · simp
      · exact absurd rfl (hshort a b c d r)
    rw [show findYear l = none by
      rcases l with _ | ⟨a, _ | ⟨b, _ | ⟨c, _ | ⟨d, r⟩⟩⟩⟩ <;>
        first
          | rfl
          | exact absurd rfl (hshort a b c d r)]
    exact ⟨fun _ i => hasYearRunAt_oob l i (by omega), fun _ => rfl⟩

theorem findYear_eq_of_least (l : List Char) (i : ℕ)
    (hi : hasYearRunAt l i = true)
    (hleast : ∀ j < i, hasYearRunAt l j = false) :
    findYear l = some ((l.drop i).take 4) := by
  induction l using findYear.induct generalizing i with
  | case1 a b c d rest hmatch =>
    have hzero : i = 0 := by
      by_contra h
      have h0 := hleast 0 (Nat.pos_of_ne_zero h)
      rw [hasYearRunAt_zero, hmatch] at h0
      cases h0
    subst hzero
    rw [findYear, if_pos hmatch]
    rfl
  | case2 a b c d rest hmatch ih =>
    cases i with
    | zero =>
      rw [hasYearRunAt_zero] at hi
      rw [hi] at hmatch
      cases hmatch rfl
    | succ j =>
      rw [hasYearRunAt_cons_succ] at hi
      rw [findYear, if_neg hmatch]
      rw [ih j hi fun k hk => by
        have := hleast (k + 1) (by omega)
        rwa [hasYearRunAt_cons_succ] at this]
      rfl
  | case3 l hshort =>
    have hlen : l.length < 4 := by
      rcases l with _ | ⟨a, _ | ⟨b, _ | ⟨c, _ | ⟨d, r⟩⟩⟩⟩
      · simp
      · simp
      · simp
      · simp
      · exact absurd rfl (hshort a b c d r)
    rw [hasYearRunAt_oob l i (by omega)] at hi
    cases hi

theorem hasYearRunAt_length_pos (l : List Char) (i : ℕ)
    (h : hasYearRunAt l i = true) : 0 < l.length := by
  by_contra hlen
  rw [hasYearRunAt_oob l i (by omega)] at h
  cases h

/-- Reduces the unbounded quantifier over match positions to the decidable
bounded one, for use on concrete inputs. -/
theorem hasYearRunAt_false_of_bounded (l : List Char)
    (h : ∀ i < l.length, hasYearRunAt l i = false) :
    ∀ i, hasYearRunAt l i = false := by
  intro i
  by_cases hi : i < l.length
  · exact h i hi
  · exact hasYearRunAt_oob l i (by omega)

theorem resolve_year_some (s : String) (hs : s ≠ "") :
    resolve_year (some s) = (extract_year_from_birth s).getD "unknown" := by
  have h : resolve_year (some s)
      = (extract_year_from_birth (if s = "" then "unknown" else s)).getD
          "unknown" := rfl
  rw [h, if_neg hs]

theorem extract_of_found (s : String) (y : List Char) (hs : s ≠ "")
    (hfind : findYear s.toList = some y) :
    extract_year_from_birth s = some y.asString := by
  unfold extract_year_from_birth
  rw [if_neg hs, hfind]

theorem extract_of_not_found (s : String) (hs : s ≠ "")
    (hfind : findYear s.toList = none) :
    extract_year_from_birth s =
      (if fourDigits ((pySplitDash s).headD "") then
        some ((pySplitDash s).headD "")
      else if fourDigits ((pySplitDash s).getLastD "") then
        some ((pySplitDash s).getLastD "")
      else none) := by
  unfold extract_year_from_birth
  rw [if_neg hs, hfind]

/-- **C1.** For every date string, the resolver returns — trying in order and
stopping at the first success — (1) the 4-digit run matching 18xx, 19xx, or
20xx found anywhere in the text (at the leftmost matching position), if any;
(2) otherwise the first `-`-separated segment, if it is exactly 4 digits;
(3) otherwise the last `-`-separated segment, if it is exactly 4 digits;
(4) otherwise the sentinel `"unknown"`; a missing or empty date string also
yields `"unknown"`. -/
theorem claim_C1 (b : Option String) :
    ((b = none ∨ b = some "") → resolve_year b = "unknown") ∧
    (∀ s : String, b = some s → s ≠ "" →
      (∀ i, hasYearRunAt s.toList i = true →
          (∀ j < i, hasYearRunAt s.toList j = false) →
          resolve_year b = ((s.toList.drop i).take 4).asString) ∧
      ((∀ i, hasYearRunAt s.toList i = false) →
        (fourDigits ((pySplitDash s).headD "") = true →
            resolve_year b = (pySplitDash s).headD "") ∧
        (fourDigits ((pySplitDash s).headD "") = false →
          fourDigits ((pySplitDash s).getLastD "") = true →
            resolve_year b = (pySplitDash s).getLastD "") ∧
        (fourDigits ((pySplitDash s).headD "") = false →
          fourDigits ((pySplitDash s).getLastD "") = false →
            resolve_year b = "unknown"))) := by
  constructor
  · rintro (rfl | rfl) <;> decide
  · rintro s rfl hs
    constructor
    · intro i hi hleast
      have hfind := findYear_eq_of_least s.toList i hi hleast
      rw [resolve_year_some s hs, extract_of_found s _ hs hfind]
      rfl
    · intro hnone
      have hfind : findYear s.toList = none := (findYear_eq_none _).mpr hnone
      have hbase := extract_of_not_found s hs hfind
      refine ⟨fun hfirst => ?_, fun hfirst hlast => ?_, fun hfirst hlast => ?_⟩
      · rw [resolve_year_some s hs, hbase, if_pos hfirst]
        rfl
      · rw [resolve_year_some s hs, hbase, if_neg (by rw [hfirst]; decide),
          if_pos hlast]
        rfl
      · rw [resolve_year_some s hs, hbase, if_neg (by rw [hfirst]; decide),
          if_neg (by rw [hlast]; decide)]
        rfl

/-- Witness for C1: each branch of the resolver exercised on a concrete
input. -/
theorem claim_C1_witness :
    resolve_year none = "unknown" ∧ resolve_year (some "") = "unknown" ∧
    resolve_year (some "born 1971-05-02") = "1971" ∧
    resolve_year (some "2100-5-6") = "2100" ∧
    resolve_year (some "9-3-2100") = "2100" ∧
    resolve_year (some "xx-yy") = "unknown" := by
  refine ⟨(claim_C1 none).1 (Or.inl rfl), (claim_C1 (some "")).1 (Or.inr rfl),
    ?_, ?_, ?_, ?_⟩
  · have h := ((claim_C1 (some "born 1971-05-02")).2 "born 1971-05-02" rfl
      (by decide)).1 5 (by decide) (by decide)
    exact h.trans (by decide)
  · have h := (((claim_C1 (some "2100-5-6")).2 "2100-5-6" rfl (by decide)).2
      (hasYearRunAt_false_of_bounded _ (by decide))).1 (by decide)
    exact h.trans (by decide)
  · have h := (((claim_C1 (some "9-3-2100")).2 "9-3-2100" rfl (by decide)).2
      (hasYearRunAt_false_of_bounded _ (by decide))).2.1 (by decide) (by decide)
    exact h.trans (by decide)
  · exact (((claim_C1 (some "xx-yy")).2 "xx-yy" rfl (by decide)).2
      (hasYearRunAt_false_of_bounded _ (by decide))).2.2 (by decide) (by decide)

/-- **C10.** For every date string containing more than one 4-digit run
matching 18xx, 19xx, or 20xx, the resolver returns the leftmost such run (the
first match in left-to-right regex search order). -/
theorem claim_C10 (s : String) (i j : ℕ) (hij : i < j)
    (hi : hasYearRunAt s.toList i = true)
    (hj : hasYearRunAt s.toList j = true)
    (hleast : ∀ k < i, hasYearRunAt s.toList k = false) :
    extract_year_from_birth s = some ((s.toList.drop i).take 4).asString := by
  have hpos := hasYearRunAt_length_pos s.toList i hi
  have hs : s ≠ "" := by
    intro h
    subst h
    simp at hpos
  have hfind := findYear_eq_of_least s.toList i hi hleast
  exact extract_of_found s _ hs hfind

/-- Witness for C10: `"1900 2000"` holds two year runs and the leftmost wins. -/
theorem claim_C10_witness :
    extract_year_from_birth "1900 2000" = some "1900" := by
  have h := claim_C10 "1900 2000" 0 5 (by decide) (by decide) (by decide)
    (by decide)
  exact h.trans (by decide)

/-! #### Association-list lemmas -/

theorem dictInsert_of_not_mem {α : Type} (d : List (String × α)) (k : String)
    (v : α) (h : d.any (fun p => p.1 = k) = false) :
    dictInsert d k v = d ++ [(k, v)] := by
  unfold dictInsert
  rw [h]
  rfl

theorem foldl_dictInsert_map {α β : Type} (xs : List β) (f : β → String)
    (g : β → α) (acc : List (String × α))
    (h : (acc.map Prod.fst ++ xs.map f).Nodup) :
    xs.foldl (fun d x => dictInsert d (f x) (g x)) acc
      = acc ++ xs.map (fun x => (f x, g x)) := by
  induction xs generalizing acc with
  | nil => simp
  | cons x rest ih =>
    simp only [List.map_cons] at h
    have hnotmem : (f x) ∉ acc.map Prod.fst := by
      intro hmem
      exact List.disjoint_of_nodup_append h hmem (by simp)
    have hany : acc.any (fun p => p.1 = f x) = false := by
      by_contra hc
      rw [Bool.not_eq_false, List.any_eq_true] at hc
      obtain ⟨p, hp, hpk⟩ := hc
      rw [decide_eq_true_eq] at hpk
      exact hnotmem (hpk ▸ List.mem_map_of_mem Prod.fst hp)
    have h2 : ((acc ++ [(f x, g x)]).map Prod.fst ++ rest.map f).Nodup := by
      simp only [List.map_append, List.map_cons, List.map_nil,
        List.append_assoc, List.singleton_append]
      simpa using h
    rw [List.foldl_cons, dictInsert_of_not_mem acc (f x) (g x) hany,
      ih (acc ++ [(f x, g x)]) h2]
    simp

theorem lookupVal_append {α : Type} (l₁ l₂ : List (String × α)) (k : String) :
    lookupVal (l₁ ++ l₂) k
      = ((l₁.find? (fun p => p.1 = k)).or
          (l₂.find? (fun p => p.1 = k))).map Prod.snd := by
  unfold lookupVal
  rw [List.find?_append]

theorem lookupVal_eq_some_of_mem {α : Type} (pairs : List (String × α))
    (k : String) (v : α) (hnd : (pairs.map Prod.fst).Nodup)
    (hmem : (k, v) ∈ pairs) : lookupVal pairs k = some v := by
  induction pairs with
  | nil => cases hmem
  | cons p rest ih =>
    rcases List.mem_cons.mp hmem with heq | hmem2
    · subst heq
      unfold lookupVal
      rw [List.find?_cons_of_pos _ (by simp)]
      rfl
    · have hk : p.1 ≠ k := by
        simp only [List.map_cons, List.nodup_cons] at hnd
        intro h
        exact hnd.1 (h ▸ List.mem_map_of_mem Prod.fst hmem2)
      unfold lookupVal
      rw [List.find?_cons_of_neg _ (by simp [hk])]
      have hnd2 : (rest.map Prod.fst).Nodup := by
        simp only [List.map_cons, List.nodup_cons] at hnd
        exact hnd.2
      exact ih hnd2 hmem2

/-! #### `strip` lemmas -/

theorem dropWhile_idem {α : Type} (p : α → Bool) (l : List α) :
    (l.dropWhile p).dropWhile p = l.dropWhile p := by
  induction l with
  | nil => rfl
  | cons a t ih =>
    by_cases h : p a
    · simp [List.dropWhile_cons, h, ih]
    · simp [List.dropWhile_cons, h]

theorem head_dropWhile_false {α : Type} (p : α → Bool) (l : List α) (a : α)
    (h : (l.dropWhile p).head? = some a) : p a = false := by
  induction l with
  | nil => cases h
  | cons b t ih =>
    by_cases hb : p b
    · rw [List.dropWhile_cons_of_pos hb] at h
      exact ih h
    · rw [List.dropWhile_cons_of_neg hb] at h
      cases h
      simpa using hb

theorem dropWhile_suffix_decomp {α : Type} (p : α → Bool) (l : List α) :
    ∃ t, l = t ++ l.dropWhile p := by
  induction l with
  | nil => exact ⟨[], rfl⟩
  | cons a t ih =>
    by_cases h : p a
    · obtain ⟨u, hu⟩ := ih
      refine ⟨a :: u, ?_⟩
      rw [List.dropWhile_cons_of_pos h, List.cons_append, ← hu]
    · exact ⟨[], by rw [List.dropWhile_cons_of_neg h]; rfl⟩

theorem dropWhile_eq_self_of_head {α : Type} (p : α → Bool) (l : List α)
    (h : ∀ a, l.head? = some a → p a = false) : l.dropWhile p = l := by
  cases l with
  | nil => rfl
  | cons a t =>
    have := h a rfl
    simp [List.dropWhile_cons, this]

/-- Stripping is idempotent: a stripped string has no leading or trailing
whitespace left. -/
theorem pyStrip_idem (s : String) : pyStrip (pyStrip s) = pyStrip s := by
  unfold pyStrip
  rw [List.toList_asString]
  have h1 : ((s.toList.dropWhile isPySpace).reverse.dropWhile
      isPySpace).reverse.dropWhile isPySpace
      = ((s.toList.dropWhile isPySpace).reverse.dropWhile isPySpace).reverse := by
    apply dropWhile_eq_self_of_head
    intro a ha
    rw [List.head?_reverse] at ha
    have hCne : (s.toList.dropWhile isPySpace).reverse.dropWhile isPySpace
        ≠ [] := by
      intro h
      rw [h] at ha
      cases ha
    obtain ⟨t, ht⟩ :=
      dropWhile_suffix_decomp isPySpace (s.toList.dropWhile isPySpace).reverse
    have ha2 : (s.toList.dropWhile isPySpace).reverse.getLast? = some a := by
      rw [ht, List.getLast?_append_of_ne_nil t hCne]
      exact ha
    rw [← List.head?_reverse, List.reverse_reverse] at ha2
    exact head_dropWhile_false isPySpace s.toList a ha2
  rw [h1, List.reverse_reverse, dropWhile_idem]

theorem stripText_stripped (t : Option String) :
    pyStrip (stripText t) = stripText t := by
  cases t with
  | none => rfl
  | some v =>
    unfold stripText
    by_cases h : v = ""
    · simp [h]
      rfl
    · simp only [h, if_false]
      exact pyStrip_idem v

/-! #### Projection structure lemmas -/

theorem person_elem_to_dict_foldl (e : Elem) (m : List (String × String)) :
    person_elem_to_dict e m
      = e.children.foldl
          (fun d c => dictInsert d (map_tag c.tag m) (childVal c m))
          (e.attrib.foldl
            (fun d kv => dictInsert d (map_tag kv.1 m) (Val.s kv.2)) []) := by
  unfold person_elem_to_dict
  apply List.foldl_ext
  intro d c _
  unfold childVal
  by_cases h : c.children.isEmpty <;> simp [h]

/-- Under distinct post-mapping top-level names the projected record is
literally the attribute pairs followed by the child pairs. -/
theorem person_elem_to_dict_eq (e : Elem) (m : List (String × String))
    (hnd : (topMappedKeys e m).Nodup) :
    person_elem_to_dict e m
      = e.attrib.map (fun kv => (map_tag kv.1 m, Val.s kv.2))
        ++ e.children.map (fun c => (map_tag c.tag m, childVal c m)) := by
  rw [person_elem_to_dict_foldl]
  unfold topMappedKeys at hnd
  rw [foldl_dictInsert_map e.attrib (fun kv => map_tag kv.1 m)
    (fun kv => Val.s kv.2) [] (by simpa using hnd.of_append_left)]
  rw [List.nil_append]
  rw [foldl_dictInsert_map e.children (fun c => map_tag c.tag m)
    (fun c => childVal c m) _ (by simpa [List.map_map, Function.comp] using hnd)]

theorem subDict_eq (c : Elem) (m : List (String × String))
    (hnd : (subMappedKeys c m).Nodup) :
    subDict c m
      = c.children.map (fun g => (map_tag g.tag m, stripText g.text)) := by
  unfold subDict
  rw [foldl_dictInsert_map c.children (fun g => map_tag g.tag m)
    (fun g => stripText g.text) [] (by simpa [subMappedKeys] using hnd)]
  rfl

theorem person_keys (e : Elem) (m : List (String × String))
    (hnd : (topMappedKeys e m).Nodup) :
    (person_elem_to_dict e m).map Prod.fst = topMappedKeys e m := by
  rw [person_elem_to_dict_eq e m hnd]
  simp [topMappedKeys, List.map_map, Function.comp_def]

/-! #### Membership and key-uniqueness lemmas for the dict model -/

theorem mem_dictInsert {α : Type} (d : List (String × α)) (k : String) (v : α)
    (p : String × α) (h : p ∈ dictInsert d k v) : p ∈ d ∨ p = (k, v) := by
  unfold dictInsert at h
  by_cases hc : d.any (fun q => q.1 = k)
  · rw [if_pos hc] at h
    obtain ⟨q, hq, hqe⟩ := List.mem_map.mp h
    by_cases hk : q.1 = k
    · right
      rw [if_pos hk] at hqe
      exact hqe.symm
    · left
      rw [if_neg hk] at hqe
      exact hqe ▸ hq
  · rw [if_neg hc] at h
    rcases List.mem_append.mp h with h1 | h2
    · exact Or.inl h1
    · exact Or.inr (by simpa using h2)

theorem mem_foldl_dictInsert {α β : Type} (xs : List β) (f : β → String)
    (g : β → α) (acc : List (String × α)) (p : String × α)
    (h : p ∈ xs.foldl (fun d x => dictInsert d (f x) (g x)) acc) :
    p ∈ acc ∨ ∃ x ∈ xs, p = (f x, g x) := by
  induction xs generalizing acc with
  | nil => exact Or.inl (by simpa using h)
  | cons x rest ih =>
    rw [List.foldl_cons] at h
    rcases ih (dictInsert acc (f x) (g x)) h with h1 | ⟨y, hy, he⟩
    · rcases mem_dictInsert acc (f x) (g x) p h1 with h3 | h4
      · exact Or.inl h3
      · exact Or.inr ⟨x, by simp, h4⟩
    · exact Or.inr ⟨y, by simp [hy], he⟩

theorem dictInsert_keys_nodup {α : Type} (d : List (String × α)) (k : String)
    (v : α) (h : (d.map Prod.fst).Nodup) :
    ((dictInsert d k v).map Prod.fst).Nodup := by
  unfold dictInsert
  by_cases hc : d.any (fun q => q.1 = k)
  · rw [if_pos hc]
    have hkeys : (d.map (fun q => if q.1 = k then (k, v) else q)).map Prod.fst
        = d.map Prod.fst := by
      rw [List.map_map]
      apply List.map_congr_left
      intro q _
      by_cases hk : q.1 = k
      · simp [hk]
      · simp [hk]
    rw [hkeys]
    exact h
  · rw [if_neg hc, List.map_append, List.nodup_append]
    refine ⟨h, by simp, ?_⟩
    intro a ha hb
    have hak : a = k := by simpa using hb
    obtain ⟨q, hq, hqa⟩ := List.mem_map.mp ha
    apply hc
    rw [List.any_eq_true]
    exact ⟨q, hq, by simp [hqa, hak]⟩

theorem foldl_dictInsert_keys_nodup {α β : Type} (xs : List β)
    (f : β → String) (g : β → α) (acc : List (String × α))
    (h : (acc.map Prod.fst).Nodup) :
    ((xs.foldl (fun d x => dictInsert d (f x) (g x)) acc).map
      Prod.fst).Nodup := by
  induction xs generalizing acc with
  | nil => simpa using h
  | cons x rest ih =>
    rw [List.foldl_cons]
    exact ih (dictInsert acc (f x) (g x))
      (dictInsert_keys_nodup acc (f x) (g x) h)

theorem map_tag_ne_empty (t : String) (m : List (String × String))
    (ht : t ≠ "") (hm : ∀ kv ∈ m, kv.2 ≠ "") : map_tag t m ≠ "" := by
  unfold map_tag lookupVal
  cases hf : m.find? (fun p => p.1 = t) with
  | none => simpa using ht
  | some q =>
    have hq := List.mem_of_find?_eq_some hf
    simpa using hm q hq

/-! #### One level of nesting: deeper structure is ignored -/

theorem isEmpty_map {α β : Type} (f : α → β) (l : List α) :
    (l.map f).isEmpty = l.isEmpty := by
  cases l <;> rfl

theorem subDict_prune (ct : String) (ca : List (String × String))
    (cx : Option String) (cc : List Elem) (m : List (String × String)) :
    subDict (Elem.mk ct ca cx (cc.map (fun g =>
      Elem.mk g.tag g.attrib g.text []))) m
      = subDict (Elem.mk ct ca cx cc) m := by
  show (cc.map (fun g => Elem.mk g.tag g.attrib g.text [])).foldl
      (fun sub g => dictInsert sub (map_tag g.tag m) (stripText g.text)) []
    = cc.foldl
      (fun sub g => dictInsert sub (map_tag g.tag m) (stripText g.text)) []
  rw [List.foldl_map]
  apply List.foldl_ext
  intro d g _
  rcases g with ⟨gt, ga, gx, gc⟩
  rfl

theorem childVal_prune (ct : String) (ca : List (String × String))
    (cx : Option String) (cc : List Elem) (m : List (String × String)) :
    childVal (Elem.mk ct ca cx (cc.map (fun g =>
      Elem.mk g.tag g.attrib g.text []))) m
      = childVal (Elem.mk ct ca cx cc) m := by
  show (if (cc.map (fun g => Elem.mk g.tag g.attrib g.text [])).isEmpty then
        Val.s (stripText cx)
      else Val.sub (subDict (Elem.mk ct ca cx (cc.map (fun g =>
        Elem.mk g.tag g.attrib g.text []))) m))
    = (if cc.isEmpty then Val.s (stripText cx)
      else Val.sub (subDict (Elem.mk ct ca cx cc) m))
  rw [isEmpty_map]
  by_cases h : cc.isEmpty
  · rw [if_pos h, if_pos h]
  · rw [if_neg h, if_neg h, subDict_prune]

theorem person_pruneDeep (e : Elem) (m : List (String × String)) :
    person_elem_to_dict (pruneDeep e) m = person_elem_to_dict e m := by
  rcases e with ⟨et, ea, ex, ech⟩
  rw [person_elem_to_dict_foldl, person_elem_to_dict_foldl]
  show (ech.map (fun c => Elem.mk c.tag c.attrib c.text (c.children.map
        (fun g => Elem.mk g.tag g.attrib g.text [])))).foldl
      (fun d c => dictInsert d (map_tag c.tag m) (childVal c m))
      (ea.foldl (fun d kv => dictInsert d (map_tag kv.1 m) (Val.s kv.2)) [])
    = ech.foldl (fun d c => dictInsert d (map_tag c.tag m) (childVal c m))
      (ea.foldl (fun d kv => dictInsert d (map_tag kv.1 m) (Val.s kv.2)) [])
  rw [List.foldl_map]
  apply List.foldl_ext
  intro d c _
  rcases c with ⟨ct, ca, cx, cc⟩
  show dictInsert d (map_tag ct m) (childVal (Elem.mk ct ca cx (cc.map
      (fun g => Elem.mk g.tag g.attrib g.text []))) m)
    = dictInsert d (map_tag ct m) (childVal (Elem.mk ct ca cx cc) m)
  rw [childVal_prune]

/-- Counterexample to C5 as stated, at both levels of the record: with the
mapping `a ↦ x, b ↦ x`, (1) two childless children collide after translation
and the later assignment overwrites the earlier, so the child tagged `a`
does not become a field of the record; and (2) even with the top-level names
distinct, two grandchildren under one child collide the same way, so the
grandchild tagged `a` does not become an entry of the nested sub-mapping. -/
theorem claim_C5_counterexample :
    person_elem_to_dict
        (Elem.mk "person" [] none
          [Elem.mk "a" [] (some "1") [], Elem.mk "b" [] (some "2") []])
        [("a", "x"), ("b", "x")]
      = [("x", Val.s "2")] ∧
    person_elem_to_dict
        (Elem.mk "person" [] none
          [Elem.mk "c" [] none
            [Elem.mk "a" [] (some "1") [], Elem.mk "b" [] (some "2") []]])
        [("a", "x"), ("b", "x")]
      = [("c", Val.sub [("x", "2")])] := by decide

/-- **C5 (amended).** For every source record element and mapping table whose
post-mapping top-level names are distinct (colliding names silently
overwrite, losing the earlier field), the projector produces a record in
which each attribute becomes a top-level scalar field with its name mapped;
each childless direct child becomes a top-level scalar field (the empty
string when it has no text), name mapped; each direct child that itself has
children becomes a nested sub-mapping and — when that child\'s grandchildren
have distinct post-mapping tags (colliding tags likewise overwrite, losing
the earlier entry) — every grandchild becomes an entry of that sub-mapping
from its mapped tag to its text, with the grandchildren\'s own children
ignored (exactly one level of nesting); and every projected text value is
trimmed of leading and trailing whitespace. -/
theorem claim_C5 (e : Elem) (m : List (String × String))
    (hnd : (topMappedKeys e m).Nodup) :
    (∀ kv ∈ e.attrib,
      lookupVal (person_elem_to_dict e m) (map_tag kv.1 m)
        = some (Val.s kv.2)) ∧
    (∀ c ∈ e.children, c.children = [] →
      lookupVal (person_elem_to_dict e m) (map_tag c.tag m)
        = some (Val.s (stripText c.text)) ∧
      pyStrip (stripText c.text) = stripText c.text) ∧
    (∀ c ∈ e.children, c.children ≠ [] →
      lookupVal (person_elem_to_dict e m) (map_tag c.tag m)
        = some (Val.sub (subDict c m)) ∧
      ((subMappedKeys c m).Nodup → ∀ g ∈ c.children,
        lookupVal (subDict c m) (map_tag g.tag m) = some (stripText g.text) ∧
        pyStrip (stripText g.text) = stripText g.text)) ∧
    person_elem_to_dict (pruneDeep e) m = person_elem_to_dict e m := by
  have hkeys := person_keys e m hnd
  have heq := person_elem_to_dict_eq e m hnd
  have hknd : ((person_elem_to_dict e m).map Prod.fst).Nodup := by
    rw [hkeys]
    exact hnd
  refine ⟨?_, ?_, ?_, person_pruneDeep e m⟩
  · intro kv hkv
    apply lookupVal_eq_some_of_mem _ _ _ hknd
    rw [heq]
    exact List.mem_append_left _
      (List.mem_map_of_mem (fun kv => (map_tag kv.1 m, Val.s kv.2)) hkv)
  · intro c hc hcnil
    refine ⟨?_, stripText_stripped c.text⟩
    apply lookupVal_eq_some_of_mem _ _ _ hknd
    rw [heq]
    have hcv : childVal c m = Val.s (stripText c.text) := by
      unfold childVal
      simp [hcnil]
    have hmem : (map_tag c.tag m, childVal c m)
        ∈ e.children.map (fun c => (map_tag c.tag m, childVal c m)) :=
      List.mem_map_of_mem (fun c => (map_tag c.tag m, childVal c m)) hc
    rw [hcv] at hmem
    exact List.mem_append_right _ hmem
  · intro c hc hcne
    have hcv : childVal c m = Val.sub (subDict c m) := by
      unfold childVal
      have hie : c.children.isEmpty = false := by
        cases hcc : c.children with
        | nil => exact absurd hcc hcne
        | cons g0 gs => rfl
      simp [hie]
    constructor
    · apply lookupVal_eq_some_of_mem _ _ _ hknd
      rw [heq]
      have hmem : (map_tag c.tag m, childVal c m)
          ∈ e.children.map (fun c => (map_tag c.tag m, childVal c m)) :=
        List.mem_map_of_mem (fun c => (map_tag c.tag m, childVal c m)) hc
      rw [hcv] at hmem
      exact List.mem_append_right _ hmem
    · intro hsub g hg
      refine ⟨?_, stripText_stripped g.text⟩
      have hseq := subDict_eq c m hsub
      apply lookupVal_eq_some_of_mem
      · rw [hseq]
        simpa [List.map_map, Function.comp_def, subMappedKeys] using hsub
      · rw [hseq]
        exact List.mem_map_of_mem (fun g => (map_tag g.tag m, stripText g.text)) hg

/-- Witness for C5 on a concrete record with an attribute, a scalar child with
surrounding whitespace, and a nested child. -/
theorem claim_C5_witness :
    lookupVal (person_elem_to_dict wPerson wMap) (map_tag "id" wMap)
        = some (Val.s "7") ∧
    lookupVal (person_elem_to_dict wPerson wMap) (map_tag "name" wMap)
        = some (Val.s (stripText (some " Ana "))) ∧
    lookupVal (person_elem_to_dict wPerson wMap) (map_tag "address" wMap)
        = some (Val.sub (subDict wAddr wMap)) ∧
    lookupVal (subDict wAddr wMap) (map_tag "city" wMap)
        = some (stripText (some "X")) ∧
    person_elem_to_dict (pruneDeep wPerson) wMap
        = person_elem_to_dict wPerson wMap := by
  have h := claim_C5 wPerson wMap (by decide)
  refine ⟨?_, ?_, ?_, ?_, h.2.2.2⟩
  · exact h.1 ("id", "7") (List.mem_cons_self _ _)
  · exact (h.2.1 wName (List.mem_cons_self _ _) rfl).1
  · exact (h.2.2.1 wAddr
      (List.mem_cons_of_mem _ (List.mem_cons_self _ _))
      (List.cons_ne_nil _ _)).1
  · exact ((h.2.2.1 wAddr
      (List.mem_cons_of_mem _ (List.mem_cons_self _ _))
      (List.cons_ne_nil _ _)).2 (by decide) wCity (List.mem_cons_self _ _)).1

/-- **C6.** Field-name lookup through the mapping table is total: the
translated name is the mapped target when the name is present and the name
itself otherwise; with an empty table, projection preserves every field and
sub-field name unchanged. -/
theorem claim_C6 :
    (∀ (t : String) (m : List (String × String)) (v : String),
      lookupVal m t = some v → map_tag t m = v) ∧
    (∀ (t : String) (m : List (String × String)),
      lookupVal m t = none → map_tag t m = t) ∧
    (∀ t : String, map_tag t [] = t) ∧
    (∀ e : Elem, person_elem_to_dict e [] = projectUnmapped e) := by
  refine ⟨?_, ?_, fun t => rfl, ?_⟩
  · intro t m v h
    unfold map_tag
    rw [h]
    rfl
  · intro t m h
    unfold map_tag
    rw [h]
    rfl
  · intro e
    have hmt : ∀ t : String, map_tag t ([] : List (String × String)) = t :=
      fun t => rfl
    unfold person_elem_to_dict projectUnmapped subDict
    simp only [hmt]

/-- Witness for C6: mapped and unmapped lookups on concrete tables. -/
theorem claim_C6_witness :
    map_tag "birth" [("birth", "dob")] = "dob" ∧
    map_tag "name" [("birth", "dob")] = "name" :=
  ⟨claim_C6.1 "birth" [("birth", "dob")] "dob" (by decide),
   claim_C6.2.1 "name" [("birth", "dob")] (by decide)⟩

/-- Counterexample to C7 as stated: the claim covers mapping tables whose
target values are the empty string, but with the table `a ↦ ""` a record with
a child tagged `a` projects to a record whose only key is the empty string. -/
theorem claim_C7_counterexample :
    (person_elem_to_dict (Elem.mk "person" [] none [Elem.mk "a" [] none []])
      [("a", "")]).map Prod.fst = [""] := by decide

/-- **C7 (amended).** Keys are always unique within the record and within any
nested sub-mapping; and provided every attribute name, child tag, grandchild
tag and every mapping target value is nonempty, no key is the empty string
after translation. -/
theorem claim_C7 (e : Elem) (m : List (String × String)) :
    ((person_elem_to_dict e m).map Prod.fst).Nodup ∧
    (∀ k sub, (k, Val.sub sub) ∈ person_elem_to_dict e m →
      (sub.map Prod.fst).Nodup) ∧
    ((∀ kv ∈ e.attrib, kv.1 ≠ "") → (∀ c ∈ e.children, c.tag ≠ "") →
      (∀ c ∈ e.children, ∀ g ∈ c.children, g.tag ≠ "") →
      (∀ kv ∈ m, kv.2 ≠ "") →
      (∀ k v, (k, v) ∈ person_elem_to_dict e m → k ≠ "") ∧
      (∀ k sub, (k, Val.sub sub) ∈ person_elem_to_dict e m →
        ∀ k2 v2, (k2, v2) ∈ sub → k2 ≠ "")) := by
  refine ⟨?_, ?_, ?_⟩
  · rw [person_elem_to_dict_foldl]
    exact foldl_dictInsert_keys_nodup e.children (fun c => map_tag c.tag m)
      (fun c => childVal c m) _
      (foldl_dictInsert_keys_nodup e.attrib (fun kv => map_tag kv.1 m)
        (fun kv => Val.s kv.2) [] (by simp))
  · intro k sub hmem
    rw [person_elem_to_dict_foldl] at hmem
    rcases mem_foldl_dictInsert _ _ _ _ _ hmem with h1 | ⟨c, hc, he⟩
    · rcases mem_foldl_dictInsert _ _ _ _ _ h1 with h2 | ⟨kv, hkv, he2⟩
      · exact absurd h2 (List.not_mem_nil _)
      · exfalso
        have hv : Val.sub sub = Val.s kv.2 := congrArg Prod.snd he2
        simp at hv
    · have hv : Val.sub sub = childVal c m := congrArg Prod.snd he
      unfold childVal at hv
      by_cases hie : c.children.isEmpty
      · rw [if_pos hie] at hv
        exact absurd hv (by simp)
      · rw [if_neg hie] at hv
        have hsub : sub = subDict c m := by
          injection hv
        rw [hsub]
        unfold subDict
        exact foldl_dictInsert_keys_nodup c.children (fun g => map_tag g.tag m)
          (fun g => stripText g.text) [] (by simp)
  · intro h1 h2 h3 h4
    constructor
    · intro k v hmem
      rw [person_elem_to_dict_foldl] at hmem
      rcases mem_foldl_dictInsert _ _ _ _ _ hmem with ha | ⟨c, hc, he⟩
      · rcases mem_foldl_dictInsert _ _ _ _ _ ha with hb | ⟨kv, hkv, he2⟩
        · exact absurd hb (List.not_mem_nil _)
        · have hk : k = map_tag kv.1 m := congrArg Prod.fst he2
          rw [hk]
          exact map_tag_ne_empty kv.1 m (h1 kv hkv) h4
      · have hk : k = map_tag c.tag m := congrArg Prod.fst he
        rw [hk]
        exact map_tag_ne_empty c.tag m (h2 c hc) h4
    · intro k sub hmem k2 v2 hm2
      rw [person_elem_to_dict_foldl] at hmem
      rcases mem_foldl_dictInsert _ _ _ _ _ hmem with ha | ⟨c, hc, he⟩
      · rcases mem_foldl_dictInsert _ _ _ _ _ ha with hb | ⟨kv, hkv, he2⟩
        · exact absurd hb (List.not_mem_nil _)
        · exfalso
          have hv : Val.sub sub = Val.s kv.2 := congrArg Prod.snd he2
          simp at hv
      · have hv : Val.sub sub = childVal c m := congrArg Prod.snd he
        unfold childVal at hv
        by_cases hie : c.children.isEmpty
        · rw [if_pos hie] at hv
          exact absurd hv (by simp)
        · rw [if_neg hie] at hv
          have hsub : sub = subDict c m := by
            injection hv
          rw [hsub] at hm2
          unfold subDict at hm2
          rcases mem_foldl_dictInsert _ _ _ _ _ hm2 with hz | ⟨g, hg, he3⟩
          · exact absurd hz (List.not_mem_nil _)
          · have hk2 : k2 = map_tag g.tag m := congrArg Prod.fst he3
            rw [hk2]
            exact map_tag_ne_empty g.tag m (h3 c hc g hg) h4

/-- Witness for the amended C7 on a concrete record and mapping. -/
theorem claim_C7_witness :
    ((person_elem_to_dict wE7 wM7).map Prod.fst).Nodup ∧
    ((subDict wAddr7 wM7).map Prod.fst).Nodup ∧
    "id" ≠ "" ∧ "ciudad" ≠ "" := by
  have h := claim_C7 wE7 wM7
  have h3 := h.2.2 (by decide) (by decide) (by decide) (by decide)
  refine ⟨h.1, ?_, ?_, ?_⟩
  · exact h.2.1 "address" (subDict wAddr7 wM7) (by decide)
  · exact h3.1 "id" (Val.s "1") (by decide)
  · exact h3.2 "address" (subDict wAddr7 wM7) (by decide) "ciudad" "X"
      (by decide)

/-! #### Lookup after insertion -/

theorem keys_map_ite {α : Type} (d : List (String × α)) (k : String) (v : α) :
    (d.map (fun q => if q.1 = k then (k, v) else q)).map Prod.fst
      = d.map Prod.fst := by
  rw [List.map_map]
  apply List.map_congr_left
  intro q _
  by_cases hk : q.1 = k
  · simp [hk]
  · simp [hk]

theorem find?_map_ite {α : Type} (d : List (String × α)) (k : String) (v : α)
    (h : d.any (fun p => p.1 = k) = true) :
    (d.map (fun p => if p.1 = k then (k, v) else p)).find?
      (fun p => p.1 = k) = some (k, v) := by
  induction d with
  | nil => cases h
  | cons q d ih =>
    by_cases hq : q.1 = k
    · rw [List.map_cons, if_pos hq]
      exact List.find?_cons_of_pos _ (by simp)
    · rw [List.map_cons, if_neg hq]
      rw [List.find?_cons_of_neg _ (by simp [hq])]
      apply ih
      simpa [List.any_cons, hq] using h

theorem lookupVal_dictInsert_self {α : Type} (d : List (String × α))
    (k : String) (v : α) : lookupVal (dictInsert d k v) k = some v := by
  unfold dictInsert
  by_cases hc : d.any (fun p => p.1 = k)
  · rw [if_pos hc]
    unfold lookupVal
    rw [find?_map_ite d k v hc]
    rfl
  · rw [if_neg hc]
    unfold lookupVal
    rw [List.find?_append]
    have hcf : d.any (fun p => p.1 = k) = false := Bool.eq_false_iff.mpr hc
    rw [List.any_eq_false] at hcf
    have hnone : d.find? (fun p => p.1 = k) = none := by
      rw [List.find?_eq_none]
      intro x hx
      exact hcf x hx
    rw [hnone]
    simp

theorem find?_map_ite_ne {α : Type} (d : List (String × α)) (k : String)
    (v : α) (k2 : String) (h : k2 ≠ k) :
    (d.map (fun p => if p.1 = k then (k, v) else p)).find?
      (fun p => p.1 = k2) = d.find? (fun p => p.1 = k2) := by
  induction d with
  | nil => rfl
  | cons q d ih =>
    by_cases hq : q.1 = k
    · rw [List.map_cons, if_pos hq]
      rw [List.find?_cons_of_neg _ (by simp [Ne.symm h]),
        List.find?_cons_of_neg _ (by simp [hq, Ne.symm h])]
      exact ih
    · rw [List.map_cons, if_neg hq]
      by_cases hq2 : q.1 = k2
      · rw [List.find?_cons_of_pos _ (by simp [hq2]),
          List.find?_cons_of_pos _ (by simp [hq2])]
      · rw [List.find?_cons_of_neg _ (by simp [hq2]),
          List.find?_cons_of_neg _ (by simp [hq2])]
        exact ih

theorem lookupVal_dictInsert_ne {α : Type} (d : List (String × α))
    (k : String) (v : α) (k2 : String) (h : k2 ≠ k) :
    lookupVal (dictInsert d k v) k2 = lookupVal d k2 := by
  unfold dictInsert
  by_cases hc : d.any (fun p => p.1 = k)
  · rw [if_pos hc]
    unfold lookupVal
    rw [find?_map_ite_ne d k v k2 h]
  · rw [if_neg hc]
    unfold lookupVal
    rw [List.find?_append]
    cases hd : d.find? (fun p => p.1 = k2) with
    | some q => rfl
    | none =>
      have : ([(k, v)] : List (String × α)).find? (fun p => p.1 = k2)
          = none := by
        rw [List.find?_eq_none]
        intro x hx
        simp only [List.mem_singleton] at hx
        simp [hx, Ne.symm h]
      rw [this]
      rfl

theorem mem_keys_dictInsert {α : Type} (d : List (String × α)) (k : String)
    (v : α) (k2 : String) :
    k2 ∈ (dictInsert d k v).map Prod.fst
      ↔ k2 ∈ d.map Prod.fst ∨ k2 = k := by
  unfold dictInsert
  by_cases hc : d.any (fun p => p.1 = k)
  · rw [if_pos hc, keys_map_ite]
    constructor
    · exact Or.inl
    · rintro (h | rfl)
      · exact h
      · rw [List.any_eq_true] at hc
        obtain ⟨q, hq, hqe⟩ := hc
        rw [decide_eq_true_eq] at hqe
        exact hqe ▸ List.mem_map_of_mem Prod.fst hq
  · rw [if_neg hc, List.map_append]
    simp [List.mem_append]

theorem lookupVal_eq_none_iff {α : Type} (d : List (String × α))
    (k : String) : lookupVal d k = none ↔ k ∉ d.map Prod.fst := by
  constructor
  · intro h hm
    obtain ⟨q, hq, hqe⟩ := List.mem_map.mp hm
    cases hf : d.find? (fun p => p.1 = k) with
    | none =>
      rw [List.find?_eq_none] at hf
      exact hf q hq (by simp [hqe])
    | some x =>
      unfold lookupVal at h
      rw [hf] at h
      cases h
  · intro h
    have hnone : d.find? (fun p => p.1 = k) = none := by
      rw [List.find?_eq_none]
      intro x hx hpx
      rw [decide_eq_true_eq] at hpx
      exact h (hpx ▸ List.mem_map_of_mem Prod.fst hx)
    unfold lookupVal
    rw [hnone]
    rfl

theorem mem_of_lookupVal_isSome {α : Type} (d : List (String × α))
    (k : String) (h : (lookupVal d k).isSome = true) :
    k ∈ d.map Prod.fst := by
  by_contra hm
  rw [(lookupVal_eq_none_iff d k).mpr hm] at h
  cases h

/-! #### Appending one record to a file body -/

theorem jsonArrayBody_append (rs : List (List (String × Val)))
    (r : List (String × Val)) :
    jsonArrayBody (rs ++ [r])
      = (if rs.isEmpty then "" else jsonArrayBody rs ++ ",\n")
        ++ jsonDumpRecord r := by
  induction rs with
  | nil => simp [jsonArrayBody]
  | cons a rest ih =>
    cases rest with
    | nil => simp [jsonArrayBody, String.append_assoc]
    | cons b t =>
      calc jsonArrayBody ((a :: b :: t) ++ [r])
          = jsonDumpRecord a ++ ",\n" ++ jsonArrayBody ((b :: t) ++ [r]) :=
            rfl
        _ = jsonDumpRecord a ++ ",\n"
            ++ ((if (b :: t).isEmpty then ""
                else jsonArrayBody (b :: t) ++ ",\n") ++ jsonDumpRecord r) :=
            by rw [ih]
        _ = (if (a :: b :: t : List _).isEmpty then ""
              else jsonArrayBody (a :: b :: t) ++ ",\n")
            ++ jsonDumpRecord r := by
            simp [jsonArrayBody, String.append_assoc]

theorem yamlStreamBody_append (rs : List (List (String × Val)))
    (r : List (String × Val)) :
    yamlStreamBody (rs ++ [r])
      = yamlStreamBody rs ++ (yamlDumpRecord r ++ "\n") := by
  induction rs with
  | nil => simp [yamlStreamBody]
  | cons a rest ih => simp [yamlStreamBody, ih, String.append_assoc]

theorem loopInv_init (outdir : String) (mapping : List (String × String)) :
    LoopInv outdir mapping [] initState := by
  refine ⟨⟨?_, ?_, ?_, ?_⟩, ⟨?_, ?_, ?_, ?_⟩⟩ <;> simp [initState]

theorem jsonStep_JInv (outdir : String) (mapping : List (String × String))
    (rs : List (List (String × Val))) (st : TState)
    (r : List (String × Val))
    (h : JInv outdir mapping rs st) :
    JInv outdir mapping (rs ++ [r])
      (jsonStep outdir (recordYear r mapping) r st) := by
  obtain ⟨hnd, hmem, hcon, hev⟩ := h
  set y := recordYear r mapping with hy
  have hyears : (rs ++ [r]).map (fun r2 => recordYear r2 mapping)
      = rs.map (fun r2 => recordYear r2 mapping) ++ [y] := by
    rw [List.map_append]
    simp [hy]
  have hfilter_eq : ∀ k2, k2 ≠ y →
      (rs ++ [r]).filter (fun r2 => recordYear r2 mapping = k2)
        = rs.filter (fun r2 => recordYear r2 mapping = k2) := by
    intro k2 hk2
    rw [List.filter_append]
    have hone : [r].filter (fun r2 => recordYear r2 mapping = k2) = [] := by
      simp [← hy, Ne.symm hk2]
    rw [hone, List.append_nil]
  have hfilter_y : (rs ++ [r]).filter (fun r2 => recordYear r2 mapping = y)
      = rs.filter (fun r2 => recordYear r2 mapping = y) ++ [r] := by
    rw [List.filter_append]
    congr 1
    simp [← hy]
  cases hjs : lookupVal st.jsonWriters y with
  | some w =>
    have hmy : y ∈ rs.map (fun r2 => recordYear r2 mapping) :=
      (hmem y).mp (mem_of_lookupVal_isSome _ _ (by rw [hjs]; rfl))
    have hw : w = ⟨jsonPath outdir y,
        "[\n" ++ jsonArrayBody
          (rs.filter (fun r2 => recordYear r2 mapping = y)),
        false⟩ := by
      have h2 := hcon y hmy
      rw [hjs] at h2
      exact Option.some.inj h2
    rw [show jsonStep outdir y r st
        = ⟨dictInsert st.jsonWriters y (w.write r), st.yamlFiles,
            st.events ++ [Event.writeJson y]⟩ from by
      unfold jsonStep
      rw [hjs]]
    refine ⟨dictInsert_keys_nodup _ _ _ hnd, ?_, ?_, ?_⟩
    · intro k
      show k ∈ (dictInsert st.jsonWriters y (w.write r)).map Prod.fst ↔ _
      rw [hyears, mem_keys_dictInsert, hmem k, List.mem_append,
        List.mem_singleton]
    · intro k hk
      by_cases hky : k = y
      · subst hky
        show lookupVal (dictInsert st.jsonWriters y (w.write r)) y = _
        rw [lookupVal_dictInsert_self]
        have hne : rs.filter (fun r2 => recordYear r2 mapping = y) ≠ [] := by
          obtain ⟨r2, hr2, hyr2⟩ := List.mem_map.mp hmy
          exact List.ne_nil_of_mem (List.mem_filter.mpr ⟨hr2, by simp [hyr2]⟩)
        rw [hfilter_y, jsonArrayBody_append,
          if_neg (by simpa [List.isEmpty_iff] using hne)]
        rw [hw]
        simp [JsonArrayWriter.write, String.append_assoc]
      · show lookupVal (dictInsert st.jsonWriters y (w.write r)) k = _
        rw [lookupVal_dictInsert_ne _ _ _ _ hky]
        have hkmem : k ∈ rs.map (fun r2 => recordYear r2 mapping) := by
          rw [hyears] at hk
          rcases List.mem_append.mp hk with h1 | h2
          · exact h1
          · exact absurd (List.mem_singleton.mp h2) hky
        rw [hcon k hkmem, hfilter_eq k hky]
    · intro k
      show (st.events ++ [Event.writeJson y]).filter (jsonEventsFor k) = _
      rw [List.filter_append, hev k, hyears]
      by_cases hky : k = y
      · subst hky
        rw [if_pos hmy, if_pos (by simp)]
        have hone : [Event.writeJson y].filter (jsonEventsFor y)
            = [Event.writeJson y] := by
          simp [jsonEventsFor]
        rw [hone]
        have hcount : ((rs.map (fun r2 => recordYear r2 mapping)
            ++ [y]).count y)
            = (rs.map (fun r2 => recordYear r2 mapping)).count y + 1 := by
          simp [List.count_append]
        rw [hcount]
        simp [List.replicate_succ', List.cons_append]
      · have hone : [Event.writeJson y].filter (jsonEventsFor k) = [] := by
          simp [jsonEventsFor, Ne.symm hky]
        rw [hone, List.append_nil]
        have hmemiff : k ∈ rs.map (fun r2 => recordYear r2 mapping) ++ [y]
            ↔ k ∈ rs.map (fun r2 => recordYear r2 mapping) := by
          simp [List.mem_append, hky]
        have hcount : (rs.map (fun r2 => recordYear r2 mapping)
            ++ [y]).count k
            = (rs.map (fun r2 => recordYear r2 mapping)).count k := by
          simp [List.count_append,
            List.count_eq_zero.mpr (show k ∉ [y] by simp [hky])]
        by_cases hkm : k ∈ rs.map (fun r2 => recordYear r2 mapping)
        · rw [if_pos hkm, if_pos (hmemiff.mpr hkm), hcount]
        · rw [if_neg hkm, if_neg (fun hc => hkm (hmemiff.mp hc))]
  | none =>
    have hny : y ∉ rs.map (fun r2 => recordYear r2 mapping) := by
      intro hmy
      have h2 := hcon y hmy
      rw [hjs] at h2
      cases h2
    rw [show jsonStep outdir y r st
        = ⟨dictInsert st.jsonWriters y
              ((JsonArrayWriter.init (jsonPath outdir y)).write r),
            st.yamlFiles,
            st.events ++ [Event.openJson y (jsonPath outdir y),
              Event.writeJson y]⟩ from by
      unfold jsonStep
      rw [hjs]]
    refine ⟨dictInsert_keys_nodup _ _ _ hnd, ?_, ?_, ?_⟩
    · intro k
      show k ∈ (dictInsert st.jsonWriters y _).map Prod.fst ↔ _
      rw [hyears, mem_keys_dictInsert, hmem k, List.mem_append,
        List.mem_singleton]
    · intro k hk
      by_cases hky : k = y
      · subst hky
        show lookupVal (dictInsert st.jsonWriters y _) y = _
        rw [lookupVal_dictInsert_self]
        have hfempty : rs.filter (fun r2 => recordYear r2 mapping = y)
            = [] := by
          rw [List.filter_eq_nil]
          intro r2 hr2 hp
          rw [decide_eq_true_eq] at hp
          exact hny (hp ▸ List.mem_map_of_mem
            (fun r3 => recordYear r3 mapping) hr2)
        rw [hfilter_y, hfempty, List.nil_append]
        simp [JsonArrayWriter.init, JsonArrayWriter.write, jsonArrayBody]
      · show lookupVal (dictInsert st.jsonWriters y _) k = _
        rw [lookupVal_dictInsert_ne _ _ _ _ hky]
        have hkmem : k ∈ rs.map (fun r2 => recordYear r2 mapping) := by
          rw [hyears] at hk
          rcases List.mem_append.mp hk with h1 | h2
          · exact h1
          · exact absurd (List.mem_singleton.mp h2) hky
        rw [hcon k hkmem, hfilter_eq k hky]
    · intro k
      show (st.events ++ [Event.openJson y (jsonPath outdir y),
          Event.writeJson y]).filter (jsonEventsFor k) = _
      rw [List.filter_append, hev k, hyears]
      by_cases hky : k = y
      · subst hky
        rw [if_neg hny, if_pos (by simp)]
        have htwo : [Event.openJson y (jsonPath outdir y),
            Event.writeJson y].filter (jsonEventsFor y)
            = [Event.openJson y (jsonPath outdir y), Event.writeJson y] := by
          simp [jsonEventsFor]
        rw [htwo, List.nil_append]
        have hcz : (rs.map (fun r2 => recordYear r2 mapping)).count y = 0 :=
          List.count_eq_zero.mpr hny
        have hcount : ((rs.map (fun r2 => recordYear r2 mapping)
            ++ [y]).count y) = 1 := by
          simp [List.count_append, hcz]
        rw [hcount]
        rfl
      · have htwo : [Event.openJson y (jsonPath outdir y),
            Event.writeJson y].filter (jsonEventsFor k) = [] := by
          simp [jsonEventsFor, Ne.symm hky]
        rw [htwo, List.append_nil]
        have hmemiff : k ∈ rs.map (fun r2 => recordYear r2 mapping) ++ [y]
            ↔ k ∈ rs.map (fun r2 => recordYear r2 mapping) := by
          simp [List.mem_append, hky]
        have hcount : (rs.map (fun r2 => recordYear r2 mapping)
            ++ [y]).count k
            = (rs.map (fun r2 => recordYear r2 mapping)).count k := by
          simp [List.count_append,
            List.count_eq_zero.mpr (show k ∉ [y] by simp [hky])]
        by_cases hkm : k ∈ rs.map (fun r2 => recordYear r2 mapping)
        · rw [if_pos hkm, if_pos (hmemiff.mpr hkm), hcount]
        · rw [if_neg hkm, if_neg (fun hc => hkm (hmemiff.mp hc))]

theorem yamlStep_YInv (outdir : String) (mapping : List (String × String))
    (rs : List (List (String × Val))) (st : TState)
    (r : List (String × Val))
    (h : YInv outdir mapping rs st) :
    YInv outdir mapping (rs ++ [r])
      (yamlStep outdir (recordYear r mapping) r st) := by
  obtain ⟨hnd, hmem, hcon, hev⟩ := h
  set y := recordYear r mapping with hy
  have hyears : (rs ++ [r]).map (fun r2 => recordYear r2 mapping)
      = rs.map (fun r2 => recordYear r2 mapping) ++ [y] := by
    rw [List.map_append]
    simp [hy]
  have hfilter_eq : ∀ k2, k2 ≠ y →
      (rs ++ [r]).filter (fun r2 => recordYear r2 mapping = k2)
        = rs.filter (fun r2 => recordYear r2 mapping = k2) := by
    intro k2 hk2
    rw [List.filter_append]
    have hone : [r].filter (fun r2 => recordYear r2 mapping = k2) = [] := by
      simp [← hy, Ne.symm hk2]
    rw [hone, List.append_nil]
  have hfilter_y : (rs ++ [r]).filter (fun r2 => recordYear r2 mapping = y)
      = rs.filter (fun r2 => recordYear r2 mapping = y) ++ [r] := by
    rw [List.filter_append]
    congr 1
    simp [← hy]
  cases hys : lookupVal st.yamlFiles y with
  | some f =>
    have hmy : y ∈ rs.map (fun r2 => recordYear r2 mapping) :=
      (hmem y).mp (mem_of_lookupVal_isSome _ _ (by rw [hys]; rfl))
    have hf : f = ⟨yamlPath outdir y,
        yamlStreamBody (rs.filter (fun r2 => recordYear r2 mapping = y))⟩ := by
      have h2 := hcon y hmy
      rw [hys] at h2
      exact Option.some.inj h2
    rw [show yamlStep outdir y r st
        = ⟨st.jsonWriters,
            dictInsert st.yamlFiles y ⟨f.path, yaml_write f.content r⟩,
            st.events ++ [Event.writeYaml y]⟩ from by
      unfold yamlStep
      rw [hys]]
    refine ⟨dictInsert_keys_nodup _ _ _ hnd, ?_, ?_, ?_⟩
    · intro k
      show k ∈ (dictInsert st.yamlFiles y _).map Prod.fst ↔ _
      rw [hyears, mem_keys_dictInsert, hmem k, List.mem_append,
        List.mem_singleton]
    · intro k hk
      by_cases hky : k = y
      · subst hky
        show lookupVal (dictInsert st.yamlFiles y _) y = _
        rw [lookupVal_dictInsert_self]
        rw [hfilter_y, yamlStreamBody_append, hf]
        simp [yaml_write, String.append_assoc]
      · show lookupVal (dictInsert st.yamlFiles y _) k = _
        rw [lookupVal_dictInsert_ne _ _ _ _ hky]
        have hkmem : k ∈ rs.map (fun r2 => recordYear r2 mapping) := by
          rw [hyears] at hk
          rcases List.mem_append.mp hk with h1 | h2
          · exact h1
          · exact absurd (List.mem_singleton.mp h2) hky
        rw [hcon k hkmem, hfilter_eq k hky]
    · intro k
      show (st.events ++ [Event.writeYaml y]).filter (yamlEventsFor k) = _
      rw [List.filter_append, hev k, hyears]
      by_cases hky : k = y
      · subst hky
        rw [if_pos hmy, if_pos (by simp)]
        have hone : [Event.writeYaml y].filter (yamlEventsFor y)
            = [Event.writeYaml y] := by
          simp [yamlEventsFor]
        rw [hone]
        have hcount : ((rs.map (fun r2 => recordYear r2 mapping)
            ++ [y]).count y)
            = (rs.map (fun r2 => recordYear r2 mapping)).count y + 1 := by
          simp [List.count_append]
        rw [hcount]
        simp [List.replicate_succ', List.cons_append]
      · have hone : [Event.writeYaml y].filter (yamlEventsFor k) = [] := by
          simp [yamlEventsFor, Ne.symm hky]
        rw [hone, List.append_nil]
        have hmemiff : k ∈ rs.map (fun r2 => recordYear r2 mapping) ++ [y]
            ↔ k ∈ rs.map (fun r2 => recordYear r2 mapping) := by
          simp [List.mem_append, hky]
        have hcount : (rs.map (fun r2 => recordYear r2 mapping)
            ++ [y]).count k
            = (rs.map (fun r2 => recordYear r2 mapping)).count k := by
          simp [List.count_append,
            List.count_eq_zero.mpr (show k ∉ [y] by simp [hky])]
        by_cases hkm : k ∈ rs.map (fun r2 => recordYear r2 mapping)
        · rw [if_pos hkm, if_pos (hmemiff.mpr hkm), hcount]
        · rw [if_neg hkm, if_neg (fun hc => hkm (hmemiff.mp hc))]
  | none =>
    have hny : y ∉ rs.map (fun r2 => recordYear r2 mapping) := by
      intro hmy
      have h2 := hcon y hmy
      rw [hys] at h2
      cases h2
    rw [show yamlStep outdir y r st
        = ⟨st.jsonWriters,
            dictInsert st.yamlFiles y
              ⟨yamlPath outdir y, yaml_write "" r⟩,
            st.events ++ [Event.openYaml y (yamlPath outdir y),
              Event.writeYaml y]⟩ from by
      unfold yamlStep
      rw [hys]]
    refine ⟨dictInsert_keys_nodup _ _ _ hnd, ?_, ?_, ?_⟩
    · intro k
      show k ∈ (dictInsert st.yamlFiles y _).map Prod.fst ↔ _
      rw [hyears, mem_keys_dictInsert, hmem k, List.mem_append,
        List.mem_singleton]
    · intro k hk
      by_cases hky : k = y
      · subst hky
        show lookupVal (dictInsert st.yamlFiles y _) y = _
        rw [lookupVal_dictInsert_self]
        have hfempty : rs.filter (fun r2 => recordYear r2 mapping = y)
            = [] := by
          rw [List.filter_eq_nil_iff]
          intro r2 hr2 hp
          rw [decide_eq_true_eq] at hp
          exact hny (hp ▸ List.mem_map_of_mem
            (fun r3 => recordYear r3 mapping) hr2)
        rw [hfilter_y, hfempty, List.nil_append]
        simp [yaml_write, yamlStreamBody]
      · show lookupVal (dictInsert st.yamlFiles y _) k = _
        rw [lookupVal_dictInsert_ne _ _ _ _ hky]
        have hkmem : k ∈ rs.map (fun r2 => recordYear r2 mapping) := by
          rw [hyears] at hk
          rcases List.mem_append.mp hk with h1 | h2
          · exact h1
          · exact absurd (List.mem_singleton.mp h2) hky
        rw [hcon k hkmem, hfilter_eq k hky]
    · intro k
      show (st.events ++ [Event.openYaml y (yamlPath outdir y),
          Event.writeYaml y]).filter (yamlEventsFor k) = _
      rw [List.filter_append, hev k, hyears]
      by_cases hky : k = y
      · subst hky
        rw [if_neg hny, if_pos (by simp)]
        have htwo : [Event.openYaml y (yamlPath outdir y),
            Event.writeYaml y].filter (yamlEventsFor y)
            = [Event.openYaml y (yamlPath outdir y), Event.writeYaml y] := by
          simp [yamlEventsFor]
        rw [htwo, List.nil_append]
        have hcz : (rs.map (fun r2 => recordYear r2 mapping)).count y = 0 :=
          List.count_eq_zero.mpr hny
        have hcount : ((rs.map (fun r2 => recordYear r2 mapping)
            ++ [y]).count y) = 1 := by
          simp [List.count_append, hcz]
        rw [hcount]
        rfl
      · have htwo : [Event.openYaml y (yamlPath outdir y),
            Event.writeYaml y].filter (yamlEventsFor k) = [] := by
          simp [yamlEventsFor, Ne.symm hky]
        rw [htwo, List.append_nil]
        have hmemiff : k ∈ rs.map (fun r2 => recordYear r2 mapping) ++ [y]
            ↔ k ∈ rs.map (fun r2 => recordYear r2 mapping) := by
          simp [List.mem_append, hky]
        have hcount : (rs.map (fun r2 => recordYear r2 mapping)
            ++ [y]).count k
            = (rs.map (fun r2 => recordYear r2 mapping)).count k := by
          simp [List.count_append,
            List.count_eq_zero.mpr (show k ∉ [y] by simp [hky])]
        by_cases hkm : k ∈ rs.map (fun r2 => recordYear r2 mapping)
        · rw [if_pos hkm, if_pos (hmemiff.mpr hkm), hcount]
        · rw [if_neg hkm, if_neg (fun hc => hkm (hmemiff.mp hc))]

theorem jsonStep_YInv_pres (outdir : String)
    (mapping : List (String × String))
    (rs : List (List (String × Val))) (st : TState) (y : String)
    (r : List (String × Val)) (h : YInv outdir mapping rs st) :
    YInv outdir mapping rs (jsonStep outdir y r st) := by
  obtain ⟨hnd, hmem, hcon, hev⟩ := h
  unfold jsonStep
  cases hjs : lookupVal st.jsonWriters y with
  | some w =>
    refine ⟨hnd, hmem, hcon, ?_⟩
    intro k
    show (st.events ++ [Event.writeJson y]).filter (yamlEventsFor k) = _
    rw [List.filter_append,
      show [Event.writeJson y].filter (yamlEventsFor k) = [] from by
        simp [yamlEventsFor],
      List.append_nil]
    exact hev k
  | none =>
    refine ⟨hnd, hmem, hcon, ?_⟩
    intro k
    show (st.events ++ [Event.openJson y (jsonPath outdir y),
        Event.writeJson y]).filter (yamlEventsFor k) = _
    rw [List.filter_append,
      show [Event.openJson y (jsonPath outdir y),
          Event.writeJson y].filter (yamlEventsFor k) = [] from by
        simp [yamlEventsFor],
      List.append_nil]
    exact hev k

theorem yamlStep_JInv_pres (outdir : String)
    (mapping : List (String × String))
    (rs : List (List (String × Val))) (st : TState) (y : String)
    (r : List (String × Val)) (h : JInv outdir mapping rs st) :
    JInv outdir mapping rs (yamlStep outdir y r st) := by
  obtain ⟨hnd, hmem, hcon, hev⟩ := h
  unfold yamlStep
  cases hys : lookupVal st.yamlFiles y with
  | some f =>
    refine ⟨hnd, hmem, hcon, ?_⟩
    intro k
    show (st.events ++ [Event.writeYaml y]).filter (jsonEventsFor k) = _
    rw [List.filter_append,
      show [Event.writeYaml y].filter (jsonEventsFor k) = [] from by
        simp [jsonEventsFor],
      List.append_nil]
    exact hev k
  | none =>
    refine ⟨hnd, hmem, hcon, ?_⟩
    intro k
    show (st.events ++ [Event.openYaml y (yamlPath outdir y),
        Event.writeYaml y]).filter (jsonEventsFor k) = _
    rw [List.filter_append,
      show [Event.openYaml y (yamlPath outdir y),
          Event.writeYaml y].filter (jsonEventsFor k) = [] from by
        simp [jsonEventsFor],
      List.append_nil]
    exact hev k

theorem processRecord_inv (outdir : String)
    (mapping : List (String × String))
    (rs : List (List (String × Val))) (st : TState) (e : Elem)
    (h : LoopInv outdir mapping rs st) :
    LoopInv outdir mapping (rs ++ [person_elem_to_dict e mapping])
      (processRecord outdir mapping st e) := by
  obtain ⟨hj, hy2⟩ := h
  show LoopInv outdir mapping _
    (yamlStep outdir
      (recordYear (person_elem_to_dict e mapping) mapping)
      (person_elem_to_dict e mapping)
      (jsonStep outdir
        (recordYear (person_elem_to_dict e mapping) mapping)
        (person_elem_to_dict e mapping) st))
  exact ⟨yamlStep_JInv_pres outdir mapping _ _ _ _
      (jsonStep_JInv outdir mapping rs st _ hj),
    yamlStep_YInv outdir mapping rs _ _
      (jsonStep_YInv_pres outdir mapping rs st _ _ hy2)⟩

theorem runLoop_inv_aux (outdir : String)
    (mapping : List (String × String)) (recordTag : String) :
    ∀ (elems : List Elem) (st : TState)
      (rs : List (List (String × Val))),
      LoopInv outdir mapping rs st →
      LoopInv outdir mapping
        (rs ++ projectedRecords mapping elems recordTag)
        (elems.foldl
          (fun st e =>
            if e.tag = recordTag then processRecord outdir mapping st e
            else st)
          st) := by
  intro elems
  induction elems with
  | nil =>
    intro st rs h
    simpa [projectedRecords] using h
  | cons e rest ih =>
    intro st rs h
    rw [List.foldl_cons]
    by_cases ht : e.tag = recordTag
    · rw [if_pos ht]
      have h3 := ih (processRecord outdir mapping st e)
        (rs ++ [person_elem_to_dict e mapping])
        (processRecord_inv outdir mapping rs st e h)
      have hp : projectedRecords mapping (e :: rest) recordTag
          = person_elem_to_dict e mapping
            :: projectedRecords mapping rest recordTag := by
        simp [projectedRecords, List.filter_cons, ht]
      rw [hp]
      simpa [List.append_assoc] using h3
    · rw [if_neg ht]
      have hp : projectedRecords mapping (e :: rest) recordTag
          = projectedRecords mapping rest recordTag := by
        simp [projectedRecords, List.filter_cons, ht]
      rw [hp]
      exact ih st rs h

theorem runLoop_inv (outdir : String) (mapping : List (String × String))
    (elems : List Elem) (recordTag : String) :
    LoopInv outdir mapping (projectedRecords mapping elems recordTag)
      (runLoop outdir mapping elems recordTag) := by
  have h := runLoop_inv_aux outdir mapping recordTag elems initState []
    (loopInv_init outdir mapping)
  simpa [runLoop] using h

/-! #### No close events during the loop; the failure-injected loop -/

theorem jsonStep_no_close (outdir y : String) (r : List (String × Val))
    (st : TState) :
    (jsonStep outdir y r st).events.filter isCloseEvent
      = st.events.filter isCloseEvent := by
  unfold jsonStep
  cases hjs : lookupVal st.jsonWriters y with
  | some w =>
    show (st.events ++ [Event.writeJson y]).filter isCloseEvent = _
    rw [List.filter_append]
    simp [isCloseEvent]
  | none =>
    show (st.events ++ [Event.openJson y (jsonPath outdir y),
      Event.writeJson y]).filter isCloseEvent = _
    rw [List.filter_append]
    simp [isCloseEvent]

theorem yamlStep_no_close (outdir y : String) (r : List (String × Val))
    (st : TState) :
    (yamlStep outdir y r st).events.filter isCloseEvent
      = st.events.filter isCloseEvent := by
  unfold yamlStep
  cases hys : lookupVal st.yamlFiles y with
  | some f =>
    show (st.events ++ [Event.writeYaml y]).filter isCloseEvent = _
    rw [List.filter_append]
    simp [isCloseEvent]
  | none =>
    show (st.events ++ [Event.openYaml y (yamlPath outdir y),
      Event.writeYaml y]).filter isCloseEvent = _
    rw [List.filter_append]
    simp [isCloseEvent]

theorem processRecord_no_close (outdir : String)
    (mapping : List (String × String)) (st : TState) (e : Elem) :
    (processRecord outdir mapping st e).events.filter isCloseEvent
      = st.events.filter isCloseEvent := by
  show ((yamlStep outdir
      (recordYear (person_elem_to_dict e mapping) mapping)
      (person_elem_to_dict e mapping)
      (jsonStep outdir
        (recordYear (person_elem_to_dict e mapping) mapping)
        (person_elem_to_dict e mapping) st)).events.filter isCloseEvent) = _
  rw [yamlStep_no_close, jsonStep_no_close]

theorem runLoop_no_close_aux (outdir : String)
    (mapping : List (String × String)) (recordTag : String) :
    ∀ (elems : List Elem) (st : TState),
      ((elems.foldl
        (fun st e =>
          if e.tag = recordTag then processRecord outdir mapping st e
          else st)
        st).events.filter isCloseEvent)
      = st.events.filter isCloseEvent := by
  intro elems
  induction elems with
  | nil => intro st; rfl
  | cons e rest ih =>
    intro st
    rw [List.foldl_cons]
    by_cases ht : e.tag = recordTag
    · rw [if_pos ht, ih, processRecord_no_close]
    · rw [if_neg ht, ih]

theorem runLoop_no_close (outdir : String)
    (mapping : List (String × String)) (elems : List Elem)
    (recordTag : String) :
    (runLoop outdir mapping elems recordTag).events.filter isCloseEvent
      = [] := by
  rw [runLoop, runLoop_no_close_aux]
  rfl

theorem runLoopEAux_no_close (outdir : String)
    (mapping : List (String × String)) (recordTag : String)
    (fail : ℕ → Bool) :
    ∀ (elems : List Elem) (i : ℕ) (st : TState) (j : ℕ) (st2 : TState),
      runLoopEAux outdir mapping recordTag fail elems i st
        = .error (j, st2) →
      st2.events.filter isCloseEvent = st.events.filter isCloseEvent := by
  intro elems
  induction elems with
  | nil =>
    intro i st j st2 h
    cases h
  | cons e rest ih =>
    intro i st j st2 h
    rw [runLoopEAux] at h
    by_cases ht : e.tag = recordTag
    · rw [if_pos ht] at h
      by_cases hf : fail i
      · rw [if_pos hf] at h
        have h2 : (i, st) = (j, st2) := by
          injection h
        have h3 : st = st2 := congrArg Prod.snd h2
        rw [← h3]
      · rw [if_neg hf] at h
        rw [ih (i + 1) (processRecord outdir mapping st e) j st2 h,
          processRecord_no_close]
    · rw [if_neg ht] at h
      exact ih (i + 1) st j st2 h

theorem runLoopEAux_ok_eq (outdir : String)
    (mapping : List (String × String)) (recordTag : String) :
    ∀ (elems : List Elem) (i : ℕ) (st : TState),
      runLoopEAux outdir mapping recordTag (fun _ => false) elems i st
        = .ok (elems.foldl
            (fun st e =>
              if e.tag = recordTag then processRecord outdir mapping st e
              else st)
            st) := by
  intro elems
  induction elems with
  | nil => intro i st; rfl
  | cons e rest ih =>
    intro i st
    rw [runLoopEAux, List.foldl_cons]
    by_cases ht : e.tag = recordTag
    · rw [if_pos ht, if_neg (by simp),
        ih (i + 1) (processRecord outdir mapping st e)]
      simp [ht]
    · rw [if_neg ht, ih (i + 1) st]
      simp [ht]

/-! #### Looking up a closed file and picking close events out of the log -/

theorem lookupVal_map_entry {α β : Type} (d : List (String × α))
    (g : String × α → β) (k : String) :
    lookupVal (d.map (fun p => (p.1, g p))) k
      = (d.find? (fun p => p.1 = k)).map g := by
  induction d with
  | nil => rfl
  | cons q rest ih =>
    by_cases hq : q.1 = k
    · unfold lookupVal
      rw [List.map_cons, List.find?_cons_of_pos _ (by simp [hq]),
        List.find?_cons_of_pos _ (by simp [hq])]
      rfl
    · unfold lookupVal
      rw [List.map_cons, List.find?_cons_of_neg _ (by simp [hq]),
        List.find?_cons_of_neg _ (by simp [hq])]
      exact ih

theorem filter_keyEq (keys : List String) (k : String) (hnd : keys.Nodup) :
    keys.filter (fun k2 => k2 = k) = if k ∈ keys then [k] else [] := by
  induction keys with
  | nil => simp
  | cons a rest ih =>
    rw [List.nodup_cons] at hnd
    by_cases hak : a = k
    · subst hak
      have hnm : a ∉ rest := hnd.1
      rw [List.filter_cons_of_pos (by simp), if_pos (by simp)]
      have hrest : rest.filter (fun k2 => k2 = a) = [] := by
        rw [List.filter_eq_nil_iff]
        intro b hb hba
        rw [decide_eq_true_eq] at hba
        exact hnm (hba ▸ hb)
      rw [hrest]
    · rw [List.filter_cons_of_neg (by simp [hak]), ih hnd.2]
      by_cases hk : k ∈ rest
      · rw [if_pos hk, if_pos (by simp [hk])]
      · rw [if_neg hk, if_neg (by simp [Ne.symm hak, hk])]

theorem filter_map_closeJson (keys : List String) (k : String)
    (hnd : keys.Nodup) :
    (keys.map Event.closeJson).filter (jsonEventsFor k)
      = if k ∈ keys then [Event.closeJson k] else [] := by
  rw [List.filter_map]
  have hp : keys.filter (jsonEventsFor k ∘ Event.closeJson)
      = keys.filter (fun k2 => k2 = k) := by
    apply List.filter_congr
    intro k2 _
    rfl
  rw [hp, filter_keyEq keys k hnd]
  by_cases hk : k ∈ keys
  · rw [if_pos hk, if_pos hk]
    rfl
  · rw [if_neg hk, if_neg hk]
    rfl

theorem filter_map_closeYaml (keys : List String) (k : String)
    (hnd : keys.Nodup) :
    (keys.map Event.closeYaml).filter (yamlEventsFor k)
      = if k ∈ keys then [Event.closeYaml k] else [] := by
  rw [List.filter_map]
  have hp : keys.filter (yamlEventsFor k ∘ Event.closeYaml)
      = keys.filter (fun k2 => k2 = k) := by
    apply List.filter_congr
    intro k2 _
    rfl
  rw [hp, filter_keyEq keys k hnd]
  by_cases hk : k ∈ keys
  · rw [if_pos hk, if_pos hk]
    rfl
  · rw [if_neg hk, if_neg hk]
    rfl

theorem filter_map_closeYaml_json (keys : List String) (k : String) :
    (keys.map Event.closeYaml).filter (jsonEventsFor k) = [] := by
  rw [List.filter_map]
  have hp : keys.filter (jsonEventsFor k ∘ Event.closeYaml) = [] := by
    rw [List.filter_eq_nil_iff]
    intro b _ hb
    cases hb
  rw [hp]
  rfl

theorem filter_map_closeJson_yaml (keys : List String) (k : String) :
    (keys.map Event.closeJson).filter (yamlEventsFor k) = [] := by
  rw [List.filter_map]
  have hp : keys.filter (yamlEventsFor k ∘ Event.closeJson) = [] := by
    rw [List.filter_eq_nil_iff]
    intro b _ hb
    cases hb
  rw [hp]
  rfl

/-! #### End-of-run facts, shared by the transcoder claims -/

theorem transcoder_events_split (outdir : String)
    (mapping : List (String × String)) (elems : List Elem)
    (recordTag : String) :
    (runTranscoder outdir mapping elems recordTag).events
      = (runLoop outdir mapping elems recordTag).events
        ++ ((runLoop outdir mapping elems recordTag).jsonWriters.map
              (fun p => Event.closeJson p.1)
            ++ (runLoop outdir mapping elems recordTag).yamlFiles.map
              (fun p => Event.closeYaml p.1)) := by
  simp [runTranscoder, closeAll, List.append_assoc]

theorem transcoder_json_filter (outdir : String)
    (mapping : List (String × String)) (elems : List Elem)
    (recordTag : String) (k : String)
    (hk : k ∈ routedYears mapping elems recordTag) :
    (runTranscoder outdir mapping elems recordTag).events.filter
        (jsonEventsFor k)
      = Event.openJson k (jsonPath outdir k)
        :: (List.replicate ((routedYears mapping elems recordTag).count k)
              (Event.writeJson k)
            ++ [Event.closeJson k]) := by
  obtain ⟨⟨jnd, jmem, jcon, jev⟩, _⟩ := runLoop_inv outdir mapping elems
    recordTag
  have hk2 : k ∈ (projectedRecords mapping elems recordTag).map
      (fun r => recordYear r mapping) := hk
  have hmapJ : (runLoop outdir mapping elems recordTag).jsonWriters.map
      (fun p => Event.closeJson p.1)
      = ((runLoop outdir mapping elems recordTag).jsonWriters.map
          Prod.fst).map Event.closeJson := by
    rw [List.map_map]
    rfl
  have hmapY : (runLoop outdir mapping elems recordTag).yamlFiles.map
      (fun p => Event.closeYaml p.1)
      = ((runLoop outdir mapping elems recordTag).yamlFiles.map
          Prod.fst).map Event.closeYaml := by
    rw [List.map_map]
    rfl
  rw [transcoder_events_split, List.filter_append, List.filter_append,
    hmapJ, hmapY, jev k, if_pos hk2, filter_map_closeJson _ k jnd,
    if_pos ((jmem k).mpr hk2), filter_map_closeYaml_json]
  simp [routedYears]

theorem transcoder_json_filter_none (outdir : String)
    (mapping : List (String × String)) (elems : List Elem)
    (recordTag : String) (k : String)
    (hk : k ∉ routedYears mapping elems recordTag) :
    (runTranscoder outdir mapping elems recordTag).events.filter
        (jsonEventsFor k) = [] := by
  obtain ⟨⟨jnd, jmem, jcon, jev⟩, _⟩ := runLoop_inv outdir mapping elems
    recordTag
  have hk2 : k ∉ (projectedRecords mapping elems recordTag).map
      (fun r => recordYear r mapping) := hk
  have hmapJ : (runLoop outdir mapping elems recordTag).jsonWriters.map
      (fun p => Event.closeJson p.1)
      = ((runLoop outdir mapping elems recordTag).jsonWriters.map
          Prod.fst).map Event.closeJson := by
    rw [List.map_map]
    rfl
  have hmapY : (runLoop outdir mapping elems recordTag).yamlFiles.map
      (fun p => Event.closeYaml p.1)
      = ((runLoop outdir mapping elems recordTag).yamlFiles.map
          Prod.fst).map Event.closeYaml := by
    rw [List.map_map]
    rfl
  rw [transcoder_events_split, List.filter_append, List.filter_append,
    hmapJ, hmapY, jev k, if_neg hk2, filter_map_closeJson _ k jnd,
    if_neg (fun hc => hk2 ((jmem k).mp hc)), filter_map_closeYaml_json]
  rfl

theorem transcoder_yaml_filter (outdir : String)
    (mapping : List (String × String)) (elems : List Elem)
    (recordTag : String) (k : String)
    (hk : k ∈ routedYears mapping elems recordTag) :
    (runTranscoder outdir mapping elems recordTag).events.filter
        (yamlEventsFor k)
      = Event.openYaml k (yamlPath outdir k)
        :: (List.replicate ((routedYears mapping elems recordTag).count k)
              (Event.writeYaml k)
            ++ [Event.closeYaml k]) := by
  obtain ⟨_, ⟨ynd, ymem, ycon, yev⟩⟩ := runLoop_inv outdir mapping elems
    recordTag
  have hk2 : k ∈ (projectedRecords mapping elems recordTag).map
      (fun r => recordYear r mapping) := hk
  have hmapJ : (runLoop outdir mapping elems recordTag).jsonWriters.map
      (fun p => Event.closeJson p.1)
      = ((runLoop outdir mapping elems recordTag).jsonWriters.map
          Prod.fst).map Event.closeJson := by
    rw [List.map_map]
    rfl
  have hmapY : (runLoop outdir mapping elems recordTag).yamlFiles.map
      (fun p => Event.closeYaml p.1)
      = ((runLoop outdir mapping elems recordTag).yamlFiles.map
          Prod.fst).map Event.closeYaml := by
    rw [List.map_map]
    rfl
  rw [transcoder_events_split, List.filter_append, List.filter_append,
    hmapJ, hmapY, yev k, if_pos hk2, filter_map_closeJson_yaml,
    filter_map_closeYaml _ k ynd, if_pos ((ymem k).mpr hk2)]
  simp [routedYears]

theorem transcoder_yaml_filter_none (outdir : String)
    (mapping : List (String × String)) (elems : List Elem)
    (recordTag : String) (k : String)
    (hk : k ∉ routedYears mapping elems recordTag) :
    (runTranscoder outdir mapping elems recordTag).events.filter
        (yamlEventsFor k) = [] := by
  obtain ⟨_, ⟨ynd, ymem, ycon, yev⟩⟩ := runLoop_inv outdir mapping elems
    recordTag
  have hk2 : k ∉ (projectedRecords mapping elems recordTag).map
      (fun r => recordYear r mapping) := hk
  have hmapJ : (runLoop outdir mapping elems recordTag).jsonWriters.map
      (fun p => Event.closeJson p.1)
      = ((runLoop outdir mapping elems recordTag).jsonWriters.map
          Prod.fst).map Event.closeJson := by
    rw [List.map_map]
    rfl
  have hmapY : (runLoop outdir mapping elems recordTag).yamlFiles.map
      (fun p => Event.closeYaml p.1)
      = ((runLoop outdir mapping elems recordTag).yamlFiles.map
          Prod.fst).map Event.closeYaml := by
    rw [List.map_map]
    rfl
  rw [transcoder_events_split, List.filter_append, List.filter_append,
    hmapJ, hmapY, yev k, if_neg hk2, filter_map_closeJson_yaml,
    filter_map_closeYaml _ k ynd,
    if_neg (fun hc => hk2 ((ymem k).mp hc))]
  rfl

theorem transcoder_jsonOut (outdir : String)
    (mapping : List (String × String)) (elems : List Elem)
    (recordTag : String) (k : String)
    (hk : k ∈ routedYears mapping elems recordTag) :
    lookupVal (runTranscoder outdir mapping elems recordTag).jsonOut k
      = some ⟨jsonPath outdir k,
          "[\n" ++ jsonArrayBody (routedRecords mapping elems recordTag k)
            ++ "\n]\n"⟩ := by
  obtain ⟨⟨jnd, jmem, jcon, jev⟩, _⟩ := runLoop_inv outdir mapping elems
    recordTag
  have hk2 : k ∈ (projectedRecords mapping elems recordTag).map
      (fun r => recordYear r mapping) := hk
  have hlook := jcon k hk2
  show lookupVal ((runLoop outdir mapping elems recordTag).jsonWriters.map
    (fun p => (p.1, (⟨p.2.path, p.2.closeContent⟩ : OutFile)))) k = _
  rw [lookupVal_map_entry]
  cases hf : (runLoop outdir mapping elems recordTag).jsonWriters.find?
      (fun p => p.1 = k) with
  | none =>
    unfold lookupVal at hlook
    rw [hf] at hlook
    cases hlook
  | some q =>
    unfold lookupVal at hlook
    rw [hf] at hlook
    have hq2 := Option.some.inj hlook
    show some (⟨q.2.path, q.2.closeContent⟩ : OutFile) = _
    rw [hq2]
    rfl

theorem transcoder_jsonOut_none (outdir : String)
    (mapping : List (String × String)) (elems : List Elem)
    (recordTag : String) (k : String)
    (hk : k ∉ routedYears mapping elems recordTag) :
    lookupVal (runTranscoder outdir mapping elems recordTag).jsonOut k
      = none := by
  obtain ⟨⟨jnd, jmem, jcon, jev⟩, _⟩ := runLoop_inv outdir mapping elems
    recordTag
  have hnone := (lookupVal_eq_none_iff
    (runLoop outdir mapping elems recordTag).jsonWriters k).mpr
    (fun hc => hk ((jmem k).mp hc))
  show lookupVal ((runLoop outdir mapping elems recordTag).jsonWriters.map
    (fun p => (p.1, (⟨p.2.path, p.2.closeContent⟩ : OutFile)))) k = _
  rw [lookupVal_map_entry]
  cases hf : (runLoop outdir mapping elems recordTag).jsonWriters.find?
      (fun p => p.1 = k) with
  | none => rfl
  | some q =>
    unfold lookupVal at hnone
    rw [hf] at hnone
    cases hnone

theorem transcoder_yamlOut (outdir : String)
    (mapping : List (String × String)) (elems : List Elem)
    (recordTag : String) (k : String)
    (hk : k ∈ routedYears mapping elems recordTag) :
    lookupVal (runTranscoder outdir mapping elems recordTag).yamlOut k
      = some ⟨yamlPath outdir k,
          yamlStreamBody (routedRecords mapping elems recordTag k)⟩ := by
  obtain ⟨_, ⟨ynd, ymem, ycon, yev⟩⟩ := runLoop_inv outdir mapping elems
    recordTag
  have hk2 : k ∈ (projectedRecords mapping elems recordTag).map
      (fun r => recordYear r mapping) := hk
  have hlook := ycon k hk2
  show lookupVal ((runLoop outdir mapping elems recordTag).yamlFiles.map
    (fun p => (p.1, (⟨p.2.path, p.2.content⟩ : OutFile)))) k = _
  rw [lookupVal_map_entry]
  cases hf : (runLoop outdir mapping elems recordTag).yamlFiles.find?
      (fun p => p.1 = k) with
  | none =>
    unfold lookupVal at hlook
    rw [hf] at hlook
    cases hlook
  | some q =>
    unfold lookupVal at hlook
    rw [hf] at hlook
    have hq2 := Option.some.inj hlook
    show some (⟨q.2.path, q.2.content⟩ : OutFile) = _
    rw [hq2]
    rfl

theorem transcoder_yamlOut_none (outdir : String)
    (mapping : List (String × String)) (elems : List Elem)
    (recordTag : String) (k : String)
    (hk : k ∉ routedYears mapping elems recordTag) :
    lookupVal (runTranscoder outdir mapping elems recordTag).yamlOut k
      = none := by
  obtain ⟨_, ⟨ynd, ymem, ycon, yev⟩⟩ := runLoop_inv outdir mapping elems
    recordTag
  have hnone := (lookupVal_eq_none_iff
    (runLoop outdir mapping elems recordTag).yamlFiles k).mpr
    (fun hc => hk ((ymem k).mp hc))
  show lookupVal ((runLoop outdir mapping elems recordTag).yamlFiles.map
    (fun p => (p.1, (⟨p.2.path, p.2.content⟩ : OutFile)))) k = _
  rw [lookupVal_map_entry]
  cases hf : (runLoop outdir mapping elems recordTag).yamlFiles.find?
      (fun p => p.1 = k) with
  | none => rfl
  | some q =>
    unfold lookupVal at hnone
    rw [hf] at hnone
    cases hnone

/-- **C2 (amended).** Per-record failures are not caught: the loop body has
no `try`/`except` and `main` has no `finally`, so a failing record aborts the
run with the writers opened so far never closed; only in a run where no
record fails does the shutdown section run, closing every open writer exactly
once after the source is drained (every close event sits in the tail block
after all loop events). -/
theorem claim_C2 (outdir : String) (mapping : List (String × String))
    (elems : List Elem) (recordTag : String) (fail : ℕ → Bool) :
    (runTranscoderE outdir mapping elems recordTag (fun _ => false)
        = .ok (runTranscoder outdir mapping elems recordTag)) ∧
    ((runLoop outdir mapping elems recordTag).events.filter isCloseEvent
        = []) ∧
    ((runTranscoder outdir mapping elems recordTag).events
        = (runLoop outdir mapping elems recordTag).events
          ++ ((runLoop outdir mapping elems recordTag).jsonWriters.map
                (fun p => Event.closeJson p.1)
              ++ (runLoop outdir mapping elems recordTag).yamlFiles.map
                (fun p => Event.closeYaml p.1))) ∧
    (∀ k, k ∈ (runLoop outdir mapping elems recordTag).jsonWriters.map
        Prod.fst →
      (runTranscoder outdir mapping elems recordTag).events.count
        (Event.closeJson k) = 1) ∧
    (∀ k, k ∈ (runLoop outdir mapping elems recordTag).yamlFiles.map
        Prod.fst →
      (runTranscoder outdir mapping elems recordTag).events.count
        (Event.closeYaml k) = 1) ∧
    (∀ (i : ℕ) (st : TState),
      runTranscoderE outdir mapping elems recordTag fail = .error (i, st) →
      st.events.filter isCloseEvent = []) := by
  refine ⟨?_, runLoop_no_close outdir mapping elems recordTag,
    transcoder_events_split outdir mapping elems recordTag, ?_, ?_, ?_⟩
  · unfold runTranscoderE
    rw [runLoopEAux_ok_eq]
    rfl
  · intro k hkmem
    obtain ⟨⟨jnd, jmem, _, _⟩, _⟩ := runLoop_inv outdir mapping elems
      recordTag
    have hky : k ∈ routedYears mapping elems recordTag := (jmem k).mp hkmem
    have hpred : jsonEventsFor k (Event.closeJson k) = true := by
      simp [jsonEventsFor]
    have h1 : (runTranscoder outdir mapping elems recordTag).events.count
        (Event.closeJson k)
        = ((runTranscoder outdir mapping elems recordTag).events.filter
            (jsonEventsFor k)).count (Event.closeJson k) :=
      (List.count_filter hpred).symm
    rw [h1, transcoder_json_filter outdir mapping elems recordTag k hky]
    rw [List.count_cons_of_ne (fun hc => Event.noConfusion hc),
      List.count_append]
    rw [List.count_eq_zero.mpr (fun hmem => by
      rw [List.mem_replicate] at hmem
      exact Event.noConfusion hmem.2)]
    simp
  · intro k hkmem
    obtain ⟨_, ⟨ynd, ymem, _, _⟩⟩ := runLoop_inv outdir mapping elems
      recordTag
    have hky : k ∈ routedYears mapping elems recordTag := (ymem k).mp hkmem
    have hpred : yamlEventsFor k (Event.closeYaml k) = true := by
      simp [yamlEventsFor]
    have h1 : (runTranscoder outdir mapping elems recordTag).events.count
        (Event.closeYaml k)
        = ((runTranscoder outdir mapping elems recordTag).events.filter
            (yamlEventsFor k)).count (Event.closeYaml k) :=
      (List.count_filter hpred).symm
    rw [h1, transcoder_yaml_filter outdir mapping elems recordTag k hky]
    rw [List.count_cons_of_ne (fun hc => Event.noConfusion hc),
      List.count_append]
    rw [List.count_eq_zero.mpr (fun hmem => by
      rw [List.mem_replicate] at hmem
      exact Event.noConfusion hmem.2)]
    simp
  · intro i st h
    unfold runTranscoderE at h
    cases haux : runLoopEAux outdir mapping recordTag fail elems 0 initState
      with
    | ok st2 =>
      rw [haux] at h
      cases h
    | error x =>
      rw [haux] at h
      have hx : x = (i, st) := by
        injection h
      rw [hx] at haux
      rw [runLoopEAux_no_close outdir mapping recordTag fail elems 0
        initState i st haux]
      rfl

/-- Counterexample to C2 as stated: with a single injected per-record failure
on the second record, the run aborts (`.error`) with the state after the
first record — the JSON writer for partition 1990 is open and no close event
was ever performed, so the shutdown path was skipped and the reader never
advanced. -/
theorem claim_C2_counterexample :
    runTranscoderE "out" [] [wP1, wP2] "person" (fun i => i == 1)
        = .error (1, processRecord "out" [] initState wP1) ∧
    (processRecord "out" [] initState wP1).jsonWriters.map Prod.fst
        = ["1990"] ∧
    (processRecord "out" [] initState wP1).events.filter isCloseEvent
        = [] := by
  refine ⟨by rfl, by decide, by decide⟩

/-- Witness for the amended C2 on a concrete two-record run. -/
theorem claim_C2_witness :
    runTranscoderE "out" [] [wP1, wP2] "person" (fun _ => false)
        = .ok (runTranscoder "out" [] [wP1, wP2] "person") ∧
    (runTranscoder "out" [] [wP1, wP2] "person").events.count
        (Event.closeJson "1990") = 1 ∧
    (runTranscoder "out" [] [wP1, wP2] "person").events.count
        (Event.closeYaml "1990") = 1 ∧
    (processRecord "out" [] initState wP1).events.filter isCloseEvent
        = [] := by
  have h := claim_C2 "out" [] [wP1, wP2] "person" (fun i => i == 1)
  exact ⟨(claim_C2 "out" [] [wP1, wP2] "person" (fun _ => false)).1,
    h.2.2.2.1 "1990" (by decide),
    h.2.2.2.2.1 "1990" (by decide),
    h.2.2.2.2.2 1 (processRecord "out" [] initState wP1) (by rfl)⟩

/-- **C3** evaluated at its failing input (the claim is right; the code is
the bug): two records route to partition 1990; the JSON file is a valid
two-element array, but the YAML file is the two serialized documents with
only a blank line between them — no `---` document-start separators are ever
written — so a YAML stream parser reads the file as ONE document (the
duplicate keys collapse), not two. -/
theorem claim_C3 :
    routedYears [] [wP1, wP2] "person" = ["1990", "1990"] ∧
    lookupVal (runTranscoder "out" [] [wP1, wP2] "person").jsonOut "1990"
      = some ⟨jsonPath "out" "1990",
          "[\n" ++ jsonDumpRecord [("birth", Val.s "1990-01-01")] ++ ",\n"
            ++ jsonDumpRecord [("birth", Val.s "1990-12-31")] ++ "\n]\n"⟩ ∧
    lookupVal (runTranscoder "out" [] [wP1, wP2] "person").yamlOut "1990"
      = some ⟨yamlPath "out" "1990",
          "birth: 1990-01-01\n\nbirth: 1990-12-31\n\n"⟩ ∧
    yamlDocCount "birth: 1990-01-01\n\nbirth: 1990-12-31\n\n" = 1 := by
  refine ⟨by decide, by decide, by decide, by decide⟩

/-- **C4.** For every run and every partition key: writers for a routed key
are created lazily (the open is emitted with the first record for the key and
only for routed keys), bound to the deterministic destinations
`people_<key>.json` / `people_<key>.yaml` under the output directory, never
closed and reopened mid-run (the filtered event log for the key is exactly
one open, then one write per routed record, then one close at shutdown), and
the single accumulated file holds every record routed to the key. -/
theorem claim_C4 (outdir : String) (mapping : List (String × String))
    (elems : List Elem) (recordTag : String) (k : String) :
    (k ∈ routedYears mapping elems recordTag →
      lookupVal (runTranscoder outdir mapping elems recordTag).jsonOut k
        = some ⟨jsonPath outdir k,
            "[\n" ++ jsonArrayBody (routedRecords mapping elems recordTag k)
              ++ "\n]\n"⟩ ∧
      lookupVal (runTranscoder outdir mapping elems recordTag).yamlOut k
        = some ⟨yamlPath outdir k,
            yamlStreamBody (routedRecords mapping elems recordTag k)⟩ ∧
      (runTranscoder outdir mapping elems recordTag).events.filter
          (jsonEventsFor k)
        = Event.openJson k (jsonPath outdir k)
          :: (List.replicate ((routedYears mapping elems recordTag).count k)
                (Event.writeJson k)
              ++ [Event.closeJson k]) ∧
      (runTranscoder outdir mapping elems recordTag).events.filter
          (yamlEventsFor k)
        = Event.openYaml k (yamlPath outdir k)
          :: (List.replicate ((routedYears mapping elems recordTag).count k)
                (Event.writeYaml k)
              ++ [Event.closeYaml k])) ∧
    (k ∉ routedYears mapping elems recordTag →
      lookupVal (runTranscoder outdir mapping elems recordTag).jsonOut k
          = none ∧
      lookupVal (runTranscoder outdir mapping elems recordTag).yamlOut k
          = none ∧
      (runTranscoder outdir mapping elems recordTag).events.filter
          (jsonEventsFor k) = [] ∧
      (runTranscoder outdir mapping elems recordTag).events.filter
          (yamlEventsFor k) = []) := by
  constructor
  · intro hk
    exact ⟨transcoder_jsonOut outdir mapping elems recordTag k hk,
      transcoder_yamlOut outdir mapping elems recordTag k hk,
      transcoder_json_filter outdir mapping elems recordTag k hk,
      transcoder_yaml_filter outdir mapping elems recordTag k hk⟩
  · intro hk
    exact ⟨transcoder_jsonOut_none outdir mapping elems recordTag k hk,
      transcoder_yamlOut_none outdir mapping elems recordTag k hk,
      transcoder_json_filter_none outdir mapping elems recordTag k hk,
      transcoder_yaml_filter_none outdir mapping elems recordTag k hk⟩

/-- Witness for C4 on the concrete two-record run: the routed key 1990 and
the unrouted key 2000. -/
theorem claim_C4_witness :
    lookupVal (runTranscoder "out" [] [wP1, wP2] "person").jsonOut "1990"
      = some ⟨jsonPath "out" "1990",
          "[\n" ++ jsonArrayBody (routedRecords [] [wP1, wP2] "person" "1990")
            ++ "\n]\n"⟩ ∧
    lookupVal (runTranscoder "out" [] [wP1, wP2] "person").jsonOut "2000"
      = none := by
  exact ⟨((claim_C4 "out" [] [wP1, wP2] "person" "1990").1 (by decide)).1,
    ((claim_C4 "out" [] [wP1, wP2] "person" "2000").2 (by decide)).1⟩

/-! ### C8: mapped birth field still partitions by year -/

theorem findYear_length (l : List Char) (y : List Char)
    (h : findYear l = some y) : y.length = 4 := by
  induction l using findYear.induct with
  | case1 a b c d rest hm =>
    rw [findYear, if_pos hm] at h
    injection h with h2
    subst h2
    rfl
  | case2 a b c d rest hm ih =>
    rw [findYear, if_neg hm] at h
    exact ih h
  | case3 l hshort =>
    rw [show findYear l = none by
      rcases l with _ | ⟨a, _ | ⟨b, _ | ⟨c, _ | ⟨d, r⟩⟩⟩⟩ <;>
        first
          | rfl
          | exact absurd rfl (hshort a b c d r)] at h
    cases h

theorem extract_year_length (s : String) (y : String)
    (h : extract_year_from_birth s = some y) : y.length = 4 := by
  by_cases hs : s = ""
  · unfold extract_year_from_birth at h
    rw [if_pos hs] at h
    cases h
  · cases hf : findYear s.toList with
    | some l =>
      rw [extract_of_found s l hs hf] at h
      injection h with h2
      subst h2
      exact findYear_length s.toList l hf
    | none =>
      rw [extract_of_not_found s hs hf] at h
      by_cases h1 : fourDigits ((pySplitDash s).headD "")
      · rw [if_pos h1] at h
        injection h with h2
        subst h2
        unfold fourDigits at h1
        rw [Bool.and_eq_true, decide_eq_true_eq] at h1
        exact h1.1
      · rw [if_neg h1] at h
        by_cases h2 : fourDigits ((pySplitDash s).getLastD "")
        · rw [if_pos h2] at h
          injection h with h3
          subst h3
          unfold fourDigits at h2
          rw [Bool.and_eq_true, decide_eq_true_eq] at h2
          exact h2.1
        · rw [if_neg h2] at h
          cases h

/-- Counterexample to C8 as stated: a record carrying both a `birth` child
and a `dob` child collides under the mapping `birth ↦ dob`; the `dob`
child\'s non-date text overwrites the mapped birth value, so the record is
partitioned as `unknown` despite carrying `birth` 1971-05-02. -/
theorem claim_C8_counterexample :
    recordYear
        (person_elem_to_dict
          (Elem.mk "person" [] none
            [Elem.mk "birth" [] (some "1971-05-02") [],
             Elem.mk "dob" [] (some "xyz") []])
          [("birth", "dob")])
        [("birth", "dob")] = "unknown" := by decide

/-- **C8 (amended).** Under the mapping `birth ↦ dob`, for records whose
post-mapping field names are distinct, a record element carrying a childless `birth` child projects to a
record holding the value under `dob` and not under `birth`; when none of the
fixed candidate names is a key of the record, the orchestrator\'s fallback
lookup under `mapping["birth"] = "dob"` still finds the value, so the record
is partitioned by the year extracted from it — never `"unknown"`. -/
theorem claim_C8 (e : Elem) (t y : String) (c : Elem)
    (hnd : (topMappedKeys e [("birth", "dob")]).Nodup)
    (hc : c ∈ e.children) (htag : c.tag = "birth") (hcc : c.children = [])
    (htext : c.text = some t)
    (hnocand : ∀ k ∈ (person_elem_to_dict e [("birth", "dob")]).map
        Prod.fst, k ∉ candidates)
    (hne : stripText (some t) ≠ "")
    (hy : extract_year_from_birth (stripText (some t)) = some y) :
    lookupVal (person_elem_to_dict e [("birth", "dob")]) "dob"
        = some (Val.s (stripText (some t))) ∧
    lookupVal (person_elem_to_dict e [("birth", "dob")]) "birth" = none ∧
    recordYear (person_elem_to_dict e [("birth", "dob")])
        [("birth", "dob")] = y ∧
    y ≠ "unknown" := by
  have hmap : map_tag "birth" [("birth", "dob")] = "dob" := rfl
  have hkeys := person_keys e [("birth", "dob")] hnd
  have heq := person_elem_to_dict_eq e [("birth", "dob")] hnd
  have hknd : ((person_elem_to_dict e [("birth", "dob")]).map
      Prod.fst).Nodup := by
    rw [hkeys]
    exact hnd
  have hdob : lookupVal (person_elem_to_dict e [("birth", "dob")]) "dob"
      = some (Val.s (stripText (some t))) := by
    apply lookupVal_eq_some_of_mem _ _ _ hknd
    rw [heq]
    have hcv : childVal c [("birth", "dob")]
        = Val.s (stripText (some t)) := by
      unfold childVal
      rw [htext]
      simp [hcc]
    have hmem : (map_tag c.tag [("birth", "dob")],
        childVal c [("birth", "dob")])
        ∈ e.children.map (fun c2 => (map_tag c2.tag [("birth", "dob")],
            childVal c2 [("birth", "dob")])) :=
      List.mem_map_of_mem _ hc
    rw [hcv, htag, hmap] at hmem
    exact List.mem_append_right _ hmem
  refine ⟨hdob, ?_, ?_, ?_⟩
  · apply (lookupVal_eq_none_iff _ _).mpr
    intro hmem
    exact hnocand "birth" hmem (by decide)
  · have hfind : candidates.find? (fun c2 =>
        (lookupVal (person_elem_to_dict e [("birth", "dob")]) c2).isSome)
        = none := by
      rw [List.find?_eq_none]
      intro cand hcand hsome
      exact hnocand cand (mem_of_lookupVal_isSome _ _ hsome) hcand
    unfold recordYear birthValOf
    rw [hfind]
    show (extract_year_from_birth (birthString
      (lookupVal (person_elem_to_dict e [("birth", "dob")])
        (map_tag "birth" [("birth", "dob")])))).getD "unknown" = y
    rw [hmap, hdob]
    have hbs : birthString (some (Val.s (stripText (some t))))
        = stripText (some t) := by
      unfold birthString isFalsyVal pyStrOfVal
      simp [hne]
    rw [hbs, hy]
    rfl
  · intro hcontra
    have hlen := extract_year_length _ _ hy
    rw [hcontra] at hlen
    exact absurd hlen (by decide)

/-- Witness for C8: the record with a `birth` child and the `birth ↦ dob`
mapping is partitioned into 1971. -/
theorem claim_C8_witness :
    lookupVal (person_elem_to_dict wE8 [("birth", "dob")]) "dob"
        = some (Val.s "1971-05-02") ∧
    lookupVal (person_elem_to_dict wE8 [("birth", "dob")]) "birth"
        = none ∧
    recordYear (person_elem_to_dict wE8 [("birth", "dob")])
        [("birth", "dob")] = "1971" := by
  have h := claim_C8 wE8 "1971-05-02" "1971"
    (Elem.mk "birth" [] (some "1971-05-02") [])
    (by decide) (List.mem_cons_self _ _) rfl rfl rfl
    (by decide) (by decide) (by decide)
  exact ⟨h.1.trans (by decide), h.2.1, h.2.2.1⟩

end XmlJsonYaml
